import Mathlib

set_option maxHeartbeats 1000000

/-!
Verification of the OSM history converter
(`src/tasks_docker_images/osm_converter_with_history_index/src/main.py`).

The Python source is shallowly embedded below.  Helper modules that are not
part of the repository snapshot (`osm_processing`, `osm_index`,
`osm_obj_transformer`, the gdal adapter) are modelled from the specification;
each such definition carries a doc comment starting with
`Modelled from the spec:`.  Everything else follows `main.py` line by line.
-/

/-- Entity kind labels of the pipeline, mirroring
`OSM_ENTITIES = ["nodes", "ways", "relations"]` in `main.py`. -/
inductive EntityType
  | nodes
  | ways
  | relations
deriving DecidableEq, Repr

/-- Per-kind processing counter, mirroring the Python dict created by
`create_processing_counter` (`{key: 0 for key in OSM_ENTITIES}`). -/
structure Counters where
  nodes : Nat
  ways : Nat
  relations : Nat
deriving DecidableEq, Repr

/-- Read the counter of one entity kind (`processing_counter[entity_type]`). -/
def Counters.get (c : Counters) : EntityType → Nat
  | EntityType.nodes => c.nodes
  | EntityType.ways => c.ways
  | EntityType.relations => c.relations

/-- Increment the counter of one entity kind, mirroring
`OsmHandler.log_processing` (`processing_counter[t] = processing_counter[t] + 1`). -/
def Counters.inc (c : Counters) : EntityType → Counters
  | EntityType.nodes => { c with nodes := c.nodes + 1 }
  | EntityType.ways => { c with ways := c.ways + 1 }
  | EntityType.relations => { c with relations := c.relations + 1 }

/-- Relation member kinds as osmium exposes them (`member.type` is the
character `"n"`, `"w"` or `"r"`). -/
inductive MemberType
  | n
  | w
  | r
deriving DecidableEq, BEq, Repr

/-- One relation member `(type, ref, role)` of the source stream. -/
structure RelMember where
  type : MemberType
  ref : Nat
  role : String
deriving DecidableEq, Repr

/-- A node version of the source stream / index.  The location is `none`
when the osmium location is invalid (e.g. a deleted version carries no
coordinates); coordinates are the `(lon, lat)` pair. -/
structure OsmNode where
  id : Nat
  version : Nat
  timestamp : Int
  visible : Bool
  tags : List (String × String)
  location : Option (Int × Int)
deriving DecidableEq, Repr

/-- A way version of the source stream / index; `nodes` is the ordered list
of referenced node ids (`node.ref` in `main.py`). -/
structure OsmWay where
  id : Nat
  version : Nat
  timestamp : Int
  visible : Bool
  tags : List (String × String)
  nodes : List Nat
deriving DecidableEq, Repr

/-- A relation version of the source stream / index with its ordered member
list. -/
structure OsmRelation where
  id : Nat
  version : Nat
  timestamp : Int
  visible : Bool
  tags : List (String × String)
  members : List RelMember
deriving DecidableEq, Repr

/-- Geometry attached to an emitted node record: `main.py` builds
`{"type": "Point", "coordinates": [lon, lat]}` when the node location is
valid. -/
inductive Geometry
  | point (lon lat : Int)
deriving DecidableEq, Repr

/-- One record of the source stream (the stream yields typed versioned
records, dispatched to the `node`/`way`/`relation` handler callbacks). -/
inductive OsmStreamItem
  | node (n : OsmNode)
  | way (w : OsmWay)
  | relation (r : OsmRelation)
deriving DecidableEq, Repr

/-- Entity kind of a stream record, as set into `current_entity_type` by the
handler callbacks of `OsmHandler`. -/
def OsmStreamItem.entity_type : OsmStreamItem → EntityType
  | OsmStreamItem.node _ => EntityType.nodes
  | OsmStreamItem.way _ => EntityType.ways
  | OsmStreamItem.relation _ => EntityType.relations

/-- Id of a stream record (`osm_object.id` in `main.py`). -/
def OsmStreamItem.osm_id : OsmStreamItem → Nat
  | OsmStreamItem.node n => n.id
  | OsmStreamItem.way w => w.id
  | OsmStreamItem.relation r => r.id

/-- Membership test of an association list modelling a Python dict
(`key in d`). -/
def alist_mem {α : Type} (m : List (Nat × α)) (k : Nat) : Bool :=
  m.any (fun p => p.1 == k)

/-- Lookup in an association list modelling a Python dict subscript
(`d[key]`, `none` standing for a `KeyError`). -/
def alist_get {α : Type} (m : List (Nat × α)) (k : Nat) : Option α :=
  (m.find? (fun p => p.1 == k)).map (fun p => p.2)

/-- Assignment `d[key] = value` on an association list modelling a Python
dict: replaces in place when the key exists, else appends (Python dicts keep
insertion order). -/
def alist_set {α : Type} (m : List (Nat × α)) (k : Nat) (v : α) : List (Nat × α) :=
  if alist_mem m k then m.map (fun p => if p.1 == k then (k, v) else p)
  else m ++ [(k, v)]

/-- Modelled from the spec: `osm_processing.get_uniformly_shard_index_from_id`
is not under `src/`.  Per the spec's shard map, hash mode computes
`shard(id) = H(id) mod S` with a stable 64-bit hash of the id; the hash is
modelled as a fixed multiplicative hash reduced modulo `2 ^ 64`. -/
def stable_hash_u64 (id : Nat) : Nat := (id * 2654435761) % (2 ^ 64)

/-- Modelled from the spec: the shard router in hash mode,
`shard = stable_hash_u64(id) mod S`. -/
def get_uniformly_shard_index_from_id (id num_shards : Nat) : Nat :=
  stable_hash_u64 id % num_shards

/-- Modelled from the spec: `osm_index.SQLiteOsmIndex` is not under `src/`.
Per the spec the store persists every version keyed by
`(kind, id, timestamp)`; it is modelled as in-memory row lists per kind. -/
structure OsmIndex where
  node_rows : List OsmNode
  way_rows : List OsmWay
  relation_rows : List OsmRelation
deriving DecidableEq, Repr

/-- Modelled from the spec: the empty store created before indexing. -/
def OsmIndex.empty : OsmIndex := ⟨[], [], []⟩

/-- One step of the `GetAsOf` scan: keep the row of the requested id whose
timestamp is the greatest one `≤ ts` seen so far. -/
def pick_as_of {α : Type} (get_id : α → Nat) (get_ts : α → Int)
    (target : Nat) (ts : Int) (acc : Option α) (row : α) : Option α :=
  if get_id row = target ∧ get_ts row ≤ ts then
    some (acc.elim row (fun best => if get_ts best < get_ts row then row else best))
  else acc

/-- Modelled from the spec: `SQLiteOsmIndex.get_node_from_index_by_timestamp`
is not under `src/`.  Per the spec it is `GetAsOf(Node, id, ts)`: the row of
that id with the greatest stored timestamp `≤ ts`, or none. -/
def get_node_from_index_by_timestamp (idx : OsmIndex) (node_id : Nat) (ts : Int) :
    Option OsmNode :=
  idx.node_rows.foldl (pick_as_of OsmNode.id OsmNode.timestamp node_id ts) none

/-- Modelled from the spec: `SQLiteOsmIndex.get_way_from_index_by_timestamp`
is not under `src/`; `GetAsOf(Way, id, ts)` as above. -/
def get_way_from_index_by_timestamp (idx : OsmIndex) (way_id : Nat) (ts : Int) :
    Option OsmWay :=
  idx.way_rows.foldl (pick_as_of OsmWay.id OsmWay.timestamp way_id ts) none

/-- Modelled from the spec: `osm_obj_transformer.is_node_dict_with_location`
is not under `src/`; per the spec a dependency is kept only when it carries a
valid location. -/
def is_node_dict_with_location (nd : OsmNode) : Bool := nd.location.isSome

/-! ## Indexing pass (`IndexCreator`) -/

/-- Static configuration of one indexer worker: shard fanout, shard mode,
the shard keys of `osm_indexer_map` (the shards this worker owns), and the
commit batch size. -/
structure IndexCreatorCfg where
  num_shards : Nat
  is_id_hash_partitioned_shards : Bool
  owned_shards : List Nat
  batch_size_to_commit : Nat
deriving DecidableEq, Repr

/-- Mutable state of one indexer worker: the per-kind processing counter,
the rows written so far as `(shard index, record)` pairs, and the number of
save-all-owned-shards commit events. -/
structure IndexCreatorState where
  processing_counter : Counters
  stored : List (Nat × OsmStreamItem)
  save_events : Nat
deriving DecidableEq, Repr

/-- Fresh worker state (all counters zero, nothing stored, no commits). -/
def IndexCreatorState.init : IndexCreatorState := ⟨⟨0, 0, 0⟩, [], 0⟩

/-- `OsmHandler.log_processing`: increments the per-kind counter (the log
line itself is I/O and not modelled). -/
def index_log_processing (st : IndexCreatorState) (et : EntityType) : IndexCreatorState :=
  { st with processing_counter := st.processing_counter.inc et }

/-- The shard choice of `IndexCreator.process_osm_object`: hash of the id in
hash mode, else the current per-kind counter value modulo `num_shards`. -/
def index_batch_index_for (cfg : IndexCreatorCfg) (counter_value id : Nat) : Nat :=
  if cfg.is_id_hash_partitioned_shards then
    get_uniformly_shard_index_from_id id cfg.num_shards
  else counter_value % cfg.num_shards

/-- `IndexCreator.commit_if_needed`: when the per-kind counter is a multiple
of `batch_size_to_commit`, call `save()` on every owned indexer (modelled as
one save event). -/
def index_commit_if_needed (cfg : IndexCreatorCfg) (et : EntityType)
    (st : IndexCreatorState) : IndexCreatorState :=
  if st.processing_counter.get et % cfg.batch_size_to_commit = 0 then
    { st with save_events := st.save_events + 1 }
  else st

/-- `IndexCreator.process_osm_object` followed by
`process_node`/`process_way`/`process_relation`: compute the shard, and when
it is owned append the record to that shard's store
(`add_*_to_index`, modelled as appending the row) and run
`commit_if_needed`; otherwise discard. -/
def index_process_osm_object (cfg : IndexCreatorCfg) (st : IndexCreatorState)
    (item : OsmStreamItem) : IndexCreatorState :=
  let et := item.entity_type
  let batch_index := index_batch_index_for cfg (st.processing_counter.get et) item.osm_id
  if batch_index ∈ cfg.owned_shards then
    index_commit_if_needed cfg et { st with stored := st.stored ++ [(batch_index, item)] }
  else st

/-- One record through the worker: the `node`/`way`/`relation` callback first
runs `OsmHandler.log_processing`, then `process_osm_object`. -/
def index_step (cfg : IndexCreatorCfg) (st : IndexCreatorState)
    (item : OsmStreamItem) : IndexCreatorState :=
  index_process_osm_object cfg (index_log_processing st item.entity_type) item

/-- `apply_file` of the indexing pass: fold the worker step over the whole
source stream. -/
def index_apply_file (cfg : IndexCreatorCfg) (st : IndexCreatorState)
    (items : List OsmStreamItem) : IndexCreatorState :=
  items.foldl (index_step cfg) st

/-- `thread_batch_size = math.ceil(num_shards / pool_size)` in
`create_osm_index` (ceiling division on naturals). -/
def thread_batch_size (num_shards pool_size : Nat) : Nat :=
  (num_shards + pool_size - 1) / pool_size

/-- The shard indices whose stores `create_osm_index` creates for worker
`pool_index`: `range(start_index, start_index + thread_batch_size)` with
`start_index = pool_index * thread_batch_size`. -/
def owned_shard_indices (num_shards pool_size pool_index : Nat) : List Nat :=
  List.range' (pool_index * thread_batch_size num_shards pool_size)
    (thread_batch_size num_shards pool_size)

/-! ## Startup shard configuration (`__main__`) -/

/-- The adjustment `if args.num_threads > num_db_shards: num_db_shards =
args.num_threads` done at startup. -/
def adjust_num_db_shards (num_threads num_db_shards : Nat) : Nat :=
  if num_threads > num_db_shards then num_threads else num_db_shards

/-- The startup validation of `__main__`: raise the shard count to the
worker count when lower, then fail when it is not divisible by the worker
count, else proceed with the adjusted count. -/
def validate_shard_config (num_threads num_db_shards : Nat) : Except String Nat :=
  let n := adjust_num_db_shards num_threads num_db_shards
  if n % num_threads ≠ 0 then
    Except.error "--num_db_shards must be divisible by --num_threads"
  else Except.ok n

/-! ## Resolution pass (`HistoryHandler`) -/

/-- `HistoryHandler.get_osm_indexer_by_id`: with a single open store return
`osm_indexer_map[0]`, else route by the hash shard of the id. -/
def get_osm_indexer_by_id (osm_indexer_map : List (Nat × OsmIndex))
    (num_shards id : Nat) : Option OsmIndex :=
  if osm_indexer_map.length = 1 then alist_get osm_indexer_map 0
  else alist_get osm_indexer_map (get_uniformly_shard_index_from_id id num_shards)

/-- The composite lookup the resolution pass performs for a node dependency:
route the id to an open store, then `GetAsOf(Node, id, ts)` there. -/
def lookup_node_as_of (osm_indexer_map : List (Nat × OsmIndex))
    (num_shards id : Nat) (ts : Int) : Option OsmNode :=
  match get_osm_indexer_by_id osm_indexer_map num_shards id with
  | some ix => get_node_from_index_by_timestamp ix id ts
  | none => none

/-- The composite lookup for a way dependency: route the id to an open
store, then `GetAsOf(Way, id, ts)` there. -/
def lookup_way_as_of (osm_indexer_map : List (Nat × OsmIndex))
    (num_shards id : Nat) (ts : Int) : Option OsmWay :=
  match get_osm_indexer_by_id osm_indexer_map num_shards id with
  | some ix => get_way_from_index_by_timestamp ix id ts
  | none => none

/-- `HistoryHandler.append_node_dict_by_id_and_timestamp`, `nodes_list`
branch: fetch the node as of `ts`; when found with a valid location append
it to the list, else leave the list unchanged. -/
def append_node_dict_by_id_and_timestamp_to_list
    (osm_indexer_map : List (Nat × OsmIndex)) (num_shards : Nat)
    (node_id : Nat) (ts : Int) (nodes_list : List OsmNode) : List OsmNode :=
  match lookup_node_as_of osm_indexer_map num_shards node_id ts with
  | some node_dict =>
    if is_node_dict_with_location node_dict then nodes_list ++ [node_dict]
    else nodes_list
  | none => nodes_list

/-- `HistoryHandler.append_node_dict_by_id_and_timestamp`, `nodes_map`
branch: fetch the node as of `ts`; when found with a valid location set
`nodes_map[node_id]`, else leave the map unchanged. -/
def append_node_dict_by_id_and_timestamp_to_map
    (osm_indexer_map : List (Nat × OsmIndex)) (num_shards : Nat)
    (node_id : Nat) (ts : Int) (nodes_map : List (Nat × OsmNode)) :
    List (Nat × OsmNode) :=
  match lookup_node_as_of osm_indexer_map num_shards node_id ts with
  | some node_dict =>
    if is_node_dict_with_location node_dict then alist_set nodes_map node_id node_dict
    else nodes_map
  | none => nodes_map

/-- `HistoryHandler.get_way_and_its_dependencies_as_dict`: the way's own
dict plus, for each referenced node id in order, the fetch-and-filter step
at the way's timestamp. -/
def get_way_and_its_dependencies_as_dict
    (osm_indexer_map : List (Nat × OsmIndex)) (num_shards : Nat)
    (way : OsmWay) : OsmWay × List OsmNode :=
  let way_timestamp := way.timestamp
  (way,
    way.nodes.foldl
      (fun acc nid =>
        append_node_dict_by_id_and_timestamp_to_list osm_indexer_map num_shards
          nid way_timestamp acc)
      [])

/-- The three dependency dicts `relation_nodes_map`, `relation_ways_map`,
`relation_relations_map` threaded through
`append_relation_dependency_objects_dicts`. -/
structure RelationDepsMaps where
  nodes_map : List (Nat × OsmNode)
  ways_map : List (Nat × OsmWay)
  relations_map : List (Nat × OsmRelation)
deriving DecidableEq, Repr

/-- `HistoryHandler.append_relation_dependency_objects_dicts`: a node member
not yet present is fetched at the relation timestamp; a way member not yet
present is fetched at the relation timestamp and, when found, each of its
node refs is fetched too; a relation member does nothing (the recursion is
commented out in the source). -/
def append_relation_dependency_objects_dicts
    (osm_indexer_map : List (Nat × OsmIndex)) (num_shards : Nat)
    (member_id : Nat) (member_type : MemberType) (relation_timestamp : Int)
    (acc : RelationDepsMaps) : RelationDepsMaps :=
  match member_type with
  | MemberType.n =>
    if alist_mem acc.nodes_map member_id then acc
    else { acc with
      nodes_map := append_node_dict_by_id_and_timestamp_to_map osm_indexer_map
        num_shards member_id relation_timestamp acc.nodes_map }
  | MemberType.w =>
    if alist_mem acc.ways_map member_id then acc
    else
      match lookup_way_as_of osm_indexer_map num_shards member_id relation_timestamp with
      | some way_dict =>
        { acc with
          ways_map := alist_set acc.ways_map member_id way_dict,
          nodes_map := way_dict.nodes.foldl
            (fun nm way_node_id =>
              append_node_dict_by_id_and_timestamp_to_map osm_indexer_map
                num_shards way_node_id relation_timestamp nm)
            acc.nodes_map }
      | none => acc
  | MemberType.r => acc

/-- `HistoryHandler.get_relation_and_its_dependencies_as_dict`: fold the
member step over the relation's members at the relation's timestamp and
return the relation dict plus the three dependency value lists. -/
def get_relation_and_its_dependencies_as_dict
    (osm_indexer_map : List (Nat × OsmIndex)) (num_shards : Nat)
    (relation : OsmRelation) :
    OsmRelation × List OsmNode × List OsmWay × List OsmRelation :=
  let relation_timestamp := relation.timestamp
  let maps := relation.members.foldl
    (fun acc m =>
      append_relation_dependency_objects_dicts osm_indexer_map num_shards
        m.ref m.type relation_timestamp acc)
    ⟨[], [], []⟩
  (relation, maps.nodes_map.map (fun p => p.2), maps.ways_map.map (fun p => p.2),
    maps.relations_map.map (fun p => p.2))

/-! ## Batch buffer (`osm_processing.BatchManager`, modelled) -/

/-- Modelled from the spec: `osm_processing.BatchManager` is not under
`src/`.  Per the spec the batch holds the pending main ways/relations (each
under a monotonically assigned simplified id), the deduplicated dependency
sets, and a per-kind simplified-id allocator that is reset on `Reset()`. -/
structure BatchManagerState where
  main_ways : List (Nat × OsmWay)
  main_relations : List (Nat × OsmRelation)
  deps_nodes : List OsmNode
  deps_ways : List OsmWay
  deps_relations : List OsmRelation
  ways_simplified_id_counter : Nat
  relations_simplified_id_counter : Nat
deriving DecidableEq, Repr

/-- Modelled from the spec: the empty batch, also the result of `Reset()`. -/
def BatchManagerState.empty : BatchManagerState := ⟨[], [], [], [], [], 0, 0⟩

/-- Modelled from the spec: add one gathered node dependency to the batch,
deduplicated by original id. -/
def batch_add_one_node_dep (b : BatchManagerState) (nd : OsmNode) : BatchManagerState :=
  if b.deps_nodes.any (fun d => d.id == nd.id) then b
  else { b with deps_nodes := b.deps_nodes ++ [nd] }

/-- Modelled from the spec: add gathered node dependencies to the batch. -/
def batch_add_node_deps (b : BatchManagerState) (nds : List OsmNode) : BatchManagerState :=
  nds.foldl batch_add_one_node_dep b

/-- Modelled from the spec: add one gathered way dependency to the batch,
deduplicated by original id. -/
def batch_add_one_way_dep (b : BatchManagerState) (wd : OsmWay) : BatchManagerState :=
  if b.deps_ways.any (fun d => d.id == wd.id) then b
  else { b with deps_ways := b.deps_ways ++ [wd] }

/-- Modelled from the spec: add gathered way dependencies to the batch. -/
def batch_add_way_deps (b : BatchManagerState) (ws : List OsmWay) : BatchManagerState :=
  ws.foldl batch_add_one_way_dep b

/-- Modelled from the spec: add one gathered relation dependency to the
batch, deduplicated by original id. -/
def batch_add_one_relation_dep (b : BatchManagerState) (rd : OsmRelation) : BatchManagerState :=
  if b.deps_relations.any (fun d => d.id == rd.id) then b
  else { b with deps_relations := b.deps_relations ++ [rd] }

/-- Modelled from the spec: add gathered relation dependencies to the
batch. -/
def batch_add_relation_deps (b : BatchManagerState) (rs : List OsmRelation) : BatchManagerState :=
  rs.foldl batch_add_one_relation_dep b

/-- Modelled from the spec:
`replace_ids_in_way_and_its_dependencies` + `add_osm_dicts_to_batches` for a
main way — store its dependencies and enqueue the way under the next
simplified id. -/
def batch_add_main_way (b : BatchManagerState) (way_dict : OsmWay)
    (way_nodes : List OsmNode) : BatchManagerState :=
  let b := batch_add_node_deps b way_nodes
  { b with
    main_ways := b.main_ways ++ [(b.ways_simplified_id_counter, way_dict)],
    ways_simplified_id_counter := b.ways_simplified_id_counter + 1 }

/-- Modelled from the spec:
`replace_ids_in_relation_and_its_dependencies` + `add_osm_dicts_to_batches`
for a main relation — store its dependencies and enqueue the relation under
the next simplified id. -/
def batch_add_main_relation (b : BatchManagerState) (relation_dict : OsmRelation)
    (nds : List OsmNode) (ws : List OsmWay) (rs : List OsmRelation) : BatchManagerState :=
  let b := batch_add_node_deps b nds
  let b := batch_add_way_deps b ws
  let b := batch_add_relation_deps b rs
  { b with
    main_relations := b.main_relations ++ [(b.relations_simplified_id_counter, relation_dict)],
    relations_simplified_id_counter := b.relations_simplified_id_counter + 1 }

/-- Modelled from the spec: `BatchManager.is_full` is not under `src/`.  Per
the spec it is true when the number of main entities of the kind since the
last flush reaches `ways_batch_size` (the equivalent threshold is used for
relations), or at end-of-stream — detected through `entities_number`, the
per-kind totals of the indexing pass handed to the `BatchManager`
constructor, when the processing counter of the kind reaches that total.
Nodes are never batched. -/
def batch_is_full (ways_batch_size : Nat) (entities_number : Counters)
    (b : BatchManagerState) (entity_type : EntityType)
    (processing_counter : Counters) : Bool :=
  match entity_type with
  | EntityType.nodes => false
  | EntityType.ways =>
    decide (ways_batch_size ≤ b.main_ways.length)
      || (processing_counter.ways == entities_number.ways)
  | EntityType.relations =>
    decide (ways_batch_size ≤ b.main_relations.length)
      || (processing_counter.relations == entities_number.relations)

/-! ## Resolution pass handlers and emission -/

/-- Static configuration of the resolution pass: the open stores, the shard
fanout, the per-kind totals of the indexing pass, the batch threshold, and
the external geometry builder (an opaque map from a kind and a simplified id
to an optional GeoJSON string). -/
structure HistoryHandlerCfg where
  osm_indexer_map : List (Nat × OsmIndex)
  num_shards : Nat
  entities_number : Counters
  ways_batch_size : Nat
  geometry_builder : EntityType → Nat → Option String

/-- An emitted JSON-lines node record: the node dict plus its geometry. -/
structure NodeOutRecord where
  node : OsmNode
  geometry : Option Geometry
deriving DecidableEq, Repr

/-- An emitted JSON-lines way record: the way dict plus its geometry. -/
structure WayOutRecord where
  way : OsmWay
  geometry : Option String
deriving DecidableEq, Repr

/-- An emitted JSON-lines relation record: the relation dict plus its
geometry. -/
structure RelationOutRecord where
  relation : OsmRelation
  geometry : Option String
deriving DecidableEq, Repr

/-- Mutable state of the resolution pass: the per-kind counter, the batch
buffer, and the three JSON-lines output files (as lists of emitted
records). -/
structure HistoryHandlerState where
  processing_counter : Counters
  batch : BatchManagerState
  out_nodes : List NodeOutRecord
  out_ways : List WayOutRecord
  out_relations : List RelationOutRecord
deriving DecidableEq, Repr

/-- Fresh resolution-pass state: zero counters, empty batch, empty output
files. -/
def HistoryHandlerState.init : HistoryHandlerState :=
  ⟨⟨0, 0, 0⟩, BatchManagerState.empty, [], [], []⟩

/-- The node geometry computed by `HistoryHandler.node`:
`{"type": "Point", "coordinates": [lon, lat]}` when the node location is
valid, else `None`. -/
def node_geometry (node : OsmNode) : Option Geometry :=
  match node.location with
  | some loc => some (Geometry.point loc.1 loc.2)
  | none => none

/-- `HistoryHandler.node`: bump the counter and emit the node record with
its own geometry directly to the JSON-lines output; the batch is not
touched. -/
def history_node (_cfg : HistoryHandlerCfg) (st : HistoryHandlerState)
    (node : OsmNode) : HistoryHandlerState :=
  let st := { st with processing_counter := st.processing_counter.inc EntityType.nodes }
  { st with out_nodes := st.out_nodes ++ [⟨node, node_geometry node⟩] }

/-- The flush performed inside `HistoryHandler.way` when the batch is full:
write the temp OSM file, run the geometry builder on the main ways'
simplified ids, emit one record per main way
(`restore_ways_ids_and_add_geometry`) and reset the batch. -/
def history_flush_ways (cfg : HistoryHandlerCfg) (st : HistoryHandlerState) :
    HistoryHandlerState :=
  { st with
    out_ways := st.out_ways ++ st.batch.main_ways.map
      (fun p => ⟨p.2, cfg.geometry_builder EntityType.ways p.1⟩),
    batch := BatchManagerState.empty }

/-- The flush performed inside `HistoryHandler.relation` when the batch is
full: write the temp OSM file, run the geometry builder on the main
relations' simplified ids, emit one record per main relation
(`restore_relations_ids_and_add_geometry`) and reset the batch. -/
def history_flush_relations (cfg : HistoryHandlerCfg) (st : HistoryHandlerState) :
    HistoryHandlerState :=
  { st with
    out_relations := st.out_relations ++ st.batch.main_relations.map
      (fun p => ⟨p.2, cfg.geometry_builder EntityType.relations p.1⟩),
    batch := BatchManagerState.empty }

/-- `HistoryHandler.way`: bump the counter, gather the way and its node
dependencies at the way's timestamp, add them to the batch, and flush when
the batch reports full. -/
def history_way (cfg : HistoryHandlerCfg) (st : HistoryHandlerState)
    (way : OsmWay) : HistoryHandlerState :=
  let st := { st with processing_counter := st.processing_counter.inc EntityType.ways }
  let wd := get_way_and_its_dependencies_as_dict cfg.osm_indexer_map cfg.num_shards way
  let st := { st with batch := batch_add_main_way st.batch wd.1 wd.2 }
  if batch_is_full cfg.ways_batch_size cfg.entities_number st.batch
      EntityType.ways st.processing_counter then
    history_flush_ways cfg st
  else st

/-- The `has_relation` scan at the top of `HistoryHandler.relation`: true
when some member has type `"r"`. -/
def has_relation_member (relation : OsmRelation) : Bool :=
  relation.members.any (fun m => m.type == MemberType.r)

/-- `HistoryHandler.relation`: bump the counter; when the relation has at
least one relation member, gather its dependencies at the relation's
timestamp, add everything to the batch and flush when full; otherwise do
nothing further. -/
def history_relation (cfg : HistoryHandlerCfg) (st : HistoryHandlerState)
    (relation : OsmRelation) : HistoryHandlerState :=
  let st := { st with processing_counter := st.processing_counter.inc EntityType.relations }
  if has_relation_member relation then
    let rd := get_relation_and_its_dependencies_as_dict cfg.osm_indexer_map
      cfg.num_shards relation
    let st := { st with
      batch := batch_add_main_relation st.batch rd.1 rd.2.1 rd.2.2.1 rd.2.2.2 }
    if batch_is_full cfg.ways_batch_size cfg.entities_number st.batch
        EntityType.relations st.processing_counter then
      history_flush_relations cfg st
    else st
  else st

/-- One record through the resolution pass, dispatching to the kind
handler. -/
def history_step (cfg : HistoryHandlerCfg) (st : HistoryHandlerState) :
    OsmStreamItem → HistoryHandlerState
  | OsmStreamItem.node n => history_node cfg st n
  | OsmStreamItem.way w => history_way cfg st w
  | OsmStreamItem.relation r => history_relation cfg st r

/-- `history_handler.apply_file(...)`: fold the resolution step over the
whole source stream.  Nothing runs after it in `__main__` except closing the
stores and the output files. -/
def history_apply_file (cfg : HistoryHandlerCfg) (st : HistoryHandlerState)
    (items : List OsmStreamItem) : HistoryHandlerState :=
  items.foldl (history_step cfg) st

/-- Statement-side characterization following the spec's words for the way
resolver: the dependency contributed by one referenced node id is the
`GetAsOf` result at the way's timestamp when it carries a valid location,
and nothing otherwise. -/
def spec_way_node_dependency (osm_indexer_map : List (Nat × OsmIndex))
    (num_shards : Nat) (ts : Int) (node_id : Nat) : Option OsmNode :=
  match lookup_node_as_of osm_indexer_map num_shards node_id ts with
  | some nd => if is_node_dict_with_location nd then some nd else none
  | none => none

/-! ## Concrete fixtures used by witnesses and counterexamples -/

/-- A node version with a valid location, id 10. -/
def nodeA : OsmNode := ⟨10, 1, 100, true, [], some (5, 5)⟩

/-- A node version with a valid location, id 11. -/
def nodeB : OsmNode := ⟨11, 1, 100, true, [], some (6, 6)⟩

/-- A deleted (invisible) node version carrying no location. -/
def nodeDeleted : OsmNode := ⟨12, 2, 120, false, [], none⟩

/-- A way version referencing nodes 10 and 11. -/
def way9 : OsmWay := ⟨9, 1, 150, true, [], [10, 11]⟩

/-- A relation version whose only member is a way (no relation member). -/
def rel100 : OsmRelation := ⟨100, 1, 200, true, [], [⟨MemberType.w, 9, "outer"⟩]⟩

/-- A relation version containing a relation member (it gets batched). -/
def rel200 : OsmRelation := ⟨200, 1, 300, true, [], [⟨MemberType.r, 100, "sub"⟩]⟩

/-- A relation version with one node member, one way member and one relation
member. -/
def rel300 : OsmRelation :=
  ⟨300, 1, 250, true, [],
    [⟨MemberType.n, 10, "point"⟩, ⟨MemberType.w, 9, "outer"⟩, ⟨MemberType.r, 100, "sub"⟩]⟩

/-- A store holding nodes 10 and 11 and way 9. -/
def index_ab : OsmIndex := ⟨[nodeA, nodeB], [way9], []⟩

/-- A store holding only node 10. -/
def index_with_node_a : OsmIndex := ⟨[nodeA], [], []⟩

/-- A geometry builder returning no geometry for any id. -/
def no_geometry_builder : EntityType → Nat → Option String := fun _ _ => none

/-- Indexing in counter mode with two shards, both owned (single worker). -/
def cfgCounter2 : IndexCreatorCfg := ⟨2, false, [0, 1], 1000000⟩

/-- Indexing in counter mode with two shards, worker owning shard 1, commit
batch size 2. -/
def cfg9 : IndexCreatorCfg := ⟨2, false, [1], 2⟩

/-- Indexing in hash mode with six shards, worker 1 of 3 owning its computed
shard range. -/
def cfg7 : IndexCreatorCfg := ⟨6, true, owned_shard_indices 6 3 1, 1000000⟩

/-- Indexing in hash mode with four shards, all owned. -/
def cfgHash4 : IndexCreatorCfg := ⟨4, true, [0, 1, 2, 3], 1000000⟩

/-- A stream of six node records. -/
def six_nodes_stream : List OsmStreamItem :=
  [OsmStreamItem.node nodeA, OsmStreamItem.node nodeB, OsmStreamItem.node nodeA,
   OsmStreamItem.node nodeB, OsmStreamItem.node nodeA, OsmStreamItem.node nodeB]

/-- Resolution over one merged empty store; the stream holds exactly one
relation. -/
def cfgHist1 : HistoryHandlerCfg :=
  ⟨[(0, OsmIndex.empty)], 1, ⟨0, 0, 1⟩, 5000, no_geometry_builder⟩

/-- Resolution over one merged empty store; the stream holds exactly two
relations. -/
def cfgHist2 : HistoryHandlerCfg :=
  ⟨[(0, OsmIndex.empty)], 1, ⟨0, 0, 2⟩, 5000, no_geometry_builder⟩

/-- Resolution over one merged store with nodes 10, 11 and way 9; the stream
holds one way and one relation. -/
def cfgHist3 : HistoryHandlerCfg :=
  ⟨[(0, index_ab)], 1, ⟨0, 1, 1⟩, 5000, no_geometry_builder⟩

/-- The merged single-store indexer map over `index_ab`. -/
def histMap1 : List (Nat × OsmIndex) := [(0, index_ab)]

/-! ## Helper lemmas -/

/-- A fold whose step preserves a projection of the state preserves it
overall. -/
theorem foldl_preserves {α β γ : Type} (f : α → β → α) (g : α → γ)
    (h : ∀ a b, g (f a b) = g a) :
    ∀ (l : List β) (a : α), g (l.foldl f a) = g a := by
  intro l
  induction l with
  | nil => intro a; rfl
  | cons x xs ih => intro a; rw [List.foldl_cons, ih, h]

/-- Any row produced by the `GetAsOf` scan carries the requested id (unless
it was already the seed accumulator). -/
theorem foldl_pick_as_of_id {α : Type} (get_id : α → Nat) (get_ts : α → Int)
    (target : Nat) (ts : Int) :
    ∀ (rows : List α) (acc : Option α) (d : α),
      rows.foldl (pick_as_of get_id get_ts target ts) acc = some d →
      get_id d = target ∨ acc = some d := by
  intro rows
  induction rows with
  | nil => intro acc d h; right; exact h
  | cons r rs ih =>
    intro acc d h
    rw [List.foldl_cons] at h
    rcases ih _ d h with h1 | h2
    · left; exact h1
    · unfold pick_as_of at h2
      by_cases hc : get_id r = target ∧ get_ts r ≤ ts
      · rw [if_pos hc] at h2
        injection h2 with h3
        cases acc with
        | none => left; rw [← h3]; exact hc.1
        | some best =>
          by_cases hb : get_ts best < get_ts r
          · left
            simp only [Option.elim, if_pos hb] at h3
            rw [← h3]; exact hc.1
          · right
            simp only [Option.elim, if_neg hb] at h3
            rw [h3]
      · rw [if_neg hc] at h2
        right; exact h2

/-- A `GetAsOf(Node, id, ts)` hit carries the requested id. -/
theorem get_node_from_index_by_timestamp_id (idx : OsmIndex) (node_id : Nat)
    (ts : Int) (d : OsmNode)
    (h : get_node_from_index_by_timestamp idx node_id ts = some d) :
    d.id = node_id := by
  rcases foldl_pick_as_of_id OsmNode.id OsmNode.timestamp node_id ts
    idx.node_rows none d h with h1 | h2
  · exact h1
  · simp at h2

/-- A `GetAsOf(Way, id, ts)` hit carries the requested id. -/
theorem get_way_from_index_by_timestamp_id (idx : OsmIndex) (way_id : Nat)
    (ts : Int) (d : OsmWay)
    (h : get_way_from_index_by_timestamp idx way_id ts = some d) :
    d.id = way_id := by
  rcases foldl_pick_as_of_id OsmWay.id OsmWay.timestamp way_id ts
    idx.way_rows none d h with h1 | h2
  · exact h1
  · simp at h2

/-- A routed node lookup hit carries the requested id. -/
theorem lookup_node_as_of_id (osm_indexer_map : List (Nat × OsmIndex))
    (num_shards id : Nat) (ts : Int) (nd : OsmNode)
    (h : lookup_node_as_of osm_indexer_map num_shards id ts = some nd) :
    nd.id = id := by
  unfold lookup_node_as_of at h
  cases hg : get_osm_indexer_by_id osm_indexer_map num_shards id with
  | none => rw [hg] at h; simp at h
  | some ix =>
    rw [hg] at h
    exact get_node_from_index_by_timestamp_id ix id ts nd h

/-- A routed way lookup hit carries the requested id. -/
theorem lookup_way_as_of_id (osm_indexer_map : List (Nat × OsmIndex))
    (num_shards id : Nat) (ts : Int) (wd : OsmWay)
    (h : lookup_way_as_of osm_indexer_map num_shards id ts = some wd) :
    wd.id = id := by
  unfold lookup_way_as_of at h
  cases hg : get_osm_indexer_by_id osm_indexer_map num_shards id with
  | none => rw [hg] at h; simp at h
  | some ix =>
    rw [hg] at h
    exact get_way_from_index_by_timestamp_id ix id ts wd h

/-- Dict-membership of an association list unfolded to an existential. -/
theorem alist_mem_iff {α : Type} (m : List (Nat × α)) (k : Nat) :
    alist_mem m k = true ↔ ∃ p ∈ m, p.1 = k := by
  simp [alist_mem, List.any_eq_true]

/-- Every entry after a dict assignment is the assigned pair or an original
entry. -/
theorem mem_alist_set {α : Type} (m : List (Nat × α)) (k : Nat) (v : α)
    (p : Nat × α) (hp : p ∈ alist_set m k v) : p = (k, v) ∨ p ∈ m := by
  unfold alist_set at hp
  split at hp
  · rcases List.mem_map.mp hp with ⟨q, hq, hpq⟩
    by_cases h : (q.1 == k) = true
    · left; rw [← hpq, if_pos h]
    · right; rw [← hpq, if_neg h]; exact hq
  · rcases List.mem_append.mp hp with h | h
    · right; exact h
    · left; simpa using h

/-- Assignment to an absent key appends the pair. -/
theorem alist_set_of_not_mem {α : Type} (m : List (Nat × α)) (k : Nat) (v : α)
    (h : alist_mem m k = false) : alist_set m k v = m ++ [(k, v)] := by
  unfold alist_set
  rw [if_neg (by rw [h]; exact Bool.false_ne_true)]

/-- A dict assignment makes the key present. -/
theorem alist_mem_alist_set_self {α : Type} (m : List (Nat × α)) (k : Nat) (v : α) :
    alist_mem (alist_set m k v) k = true := by
  rw [alist_mem_iff]
  unfold alist_set
  split
  case isTrue h =>
    rw [alist_mem_iff] at h
    obtain ⟨p, hp, hpk⟩ := h
    exact ⟨(k, v), List.mem_map.mpr ⟨p, hp, by rw [if_pos (by simp [hpk])]⟩, rfl⟩
  case isFalse h =>
    exact ⟨(k, v), List.mem_append_right _ (by simp), rfl⟩

/-- A dict assignment keeps every previously present key present. -/
theorem alist_mem_alist_set {α : Type} (m : List (Nat × α)) (k : Nat) (v : α)
    (k' : Nat) (h : alist_mem m k' = true) :
    alist_mem (alist_set m k v) k' = true := by
  rw [alist_mem_iff] at h ⊢
  obtain ⟨p, hp, hpk⟩ := h
  unfold alist_set
  split
  · by_cases hq : (p.1 == k) = true
    · refine ⟨(k, v), List.mem_map.mpr ⟨p, hp, by rw [if_pos hq]⟩, ?_⟩
      simp only [beq_iff_eq] at hq
      rw [← hpk, hq]
    · exact ⟨p, List.mem_map.mpr ⟨p, hp, by rw [if_neg hq]⟩, hpk⟩
  · exact ⟨p, List.mem_append_left _ hp, hpk⟩

/-- Every entry after the map branch of
`append_node_dict_by_id_and_timestamp` is an original entry or a fresh
located `GetAsOf` hit for the appended id. -/
theorem mem_append_node_to_map (osm_indexer_map : List (Nat × OsmIndex))
    (num_shards node_id : Nat) (ts : Int) (nm : List (Nat × OsmNode))
    (p : Nat × OsmNode)
    (hp : p ∈ append_node_dict_by_id_and_timestamp_to_map osm_indexer_map
      num_shards node_id ts nm) :
    p ∈ nm ∨
      (p.1 = node_id ∧
        lookup_node_as_of osm_indexer_map num_shards node_id ts = some p.2 ∧
        is_node_dict_with_location p.2 = true) := by
  unfold append_node_dict_by_id_and_timestamp_to_map at hp
  cases hl : lookup_node_as_of osm_indexer_map num_shards node_id ts with
  | none => rw [hl] at hp; left; exact hp
  | some nd =>
    rw [hl] at hp
    dsimp only at hp
    by_cases hloc : is_node_dict_with_location nd = true
    · rw [if_pos hloc] at hp
      rcases mem_alist_set _ _ _ _ hp with h | h
      · right; rw [h]; exact ⟨rfl, rfl, hloc⟩
      · left; exact h
    · rw [if_neg hloc] at hp; left; exact hp

/-- The map branch of `append_node_dict_by_id_and_timestamp` keeps every
present key present. -/
theorem alist_mem_append_node_to_map (osm_indexer_map : List (Nat × OsmIndex))
    (num_shards node_id : Nat) (ts : Int) (nm : List (Nat × OsmNode)) (k : Nat)
    (h : alist_mem nm k = true) :
    alist_mem (append_node_dict_by_id_and_timestamp_to_map osm_indexer_map
      num_shards node_id ts nm) k = true := by
  unfold append_node_dict_by_id_and_timestamp_to_map
  cases lookup_node_as_of osm_indexer_map num_shards node_id ts with
  | none => exact h
  | some nd =>
    dsimp only
    by_cases hloc : is_node_dict_with_location nd = true
    · rw [if_pos hloc]; exact alist_mem_alist_set _ _ _ _ h
    · rw [if_neg hloc]; exact h

/-- Every entry after folding the node-map append over a list of node ids is
an original entry or a fresh located `GetAsOf` hit for one of the folded
ids. -/
theorem mem_foldl_append_node_to_map (osm_indexer_map : List (Nat × OsmIndex))
    (num_shards : Nat) (ts : Int) :
    ∀ (l : List Nat) (nm : List (Nat × OsmNode)) (p : Nat × OsmNode),
      p ∈ l.foldl
        (fun acc nid =>
          append_node_dict_by_id_and_timestamp_to_map osm_indexer_map num_shards
            nid ts acc) nm →
      p ∈ nm ∨
        (p.1 ∈ l ∧
          lookup_node_as_of osm_indexer_map num_shards p.1 ts = some p.2 ∧
          is_node_dict_with_location p.2 = true) := by
  intro l
  induction l with
  | nil => intro nm p hp; left; exact hp
  | cons x xs ih =>
    intro nm p hp
    rw [List.foldl_cons] at hp
    rcases ih _ p hp with h | ⟨h1, h2, h3⟩
    · rcases mem_append_node_to_map _ _ _ _ _ _ h with h' | ⟨e1, e2, e3⟩
      · left; exact h'
      · right
        refine ⟨by rw [e1]; exact List.mem_cons_self x xs, ?_, e3⟩
        rw [e1]; exact e2
    · right; exact ⟨List.mem_cons_of_mem x h1, h2, h3⟩

/-- `batch_add_node_deps` changes only the node dependency set. -/
theorem batch_add_node_deps_main_ways (b : BatchManagerState) (nds : List OsmNode) :
    (batch_add_node_deps b nds).main_ways = b.main_ways :=
  foldl_preserves batch_add_one_node_dep (fun s => s.main_ways)
    (fun a nd => by unfold batch_add_one_node_dep; split <;> rfl) nds b

/-- `batch_add_node_deps` keeps the main relation list. -/
theorem batch_add_node_deps_main_relations (b : BatchManagerState) (nds : List OsmNode) :
    (batch_add_node_deps b nds).main_relations = b.main_relations :=
  foldl_preserves batch_add_one_node_dep (fun s => s.main_relations)
    (fun a nd => by unfold batch_add_one_node_dep; split <;> rfl) nds b

/-- `batch_add_node_deps` keeps the way simplified-id allocator. -/
theorem batch_add_node_deps_ways_counter (b : BatchManagerState) (nds : List OsmNode) :
    (batch_add_node_deps b nds).ways_simplified_id_counter = b.ways_simplified_id_counter :=
  foldl_preserves batch_add_one_node_dep (fun s => s.ways_simplified_id_counter)
    (fun a nd => by unfold batch_add_one_node_dep; split <;> rfl) nds b

/-- `batch_add_node_deps` keeps the relation simplified-id allocator. -/
theorem batch_add_node_deps_relations_counter (b : BatchManagerState) (nds : List OsmNode) :
    (batch_add_node_deps b nds).relations_simplified_id_counter =
      b.relations_simplified_id_counter :=
  foldl_preserves batch_add_one_node_dep (fun s => s.relations_simplified_id_counter)
    (fun a nd => by unfold batch_add_one_node_dep; split <;> rfl) nds b

/-- `batch_add_way_deps` keeps the main relation list. -/
theorem batch_add_way_deps_main_relations (b : BatchManagerState) (ws : List OsmWay) :
    (batch_add_way_deps b ws).main_relations = b.main_relations :=
  foldl_preserves batch_add_one_way_dep (fun s => s.main_relations)
    (fun a wd => by unfold batch_add_one_way_dep; split <;> rfl) ws b

/-- `batch_add_way_deps` keeps the relation simplified-id allocator. -/
theorem batch_add_way_deps_relations_counter (b : BatchManagerState) (ws : List OsmWay) :
    (batch_add_way_deps b ws).relations_simplified_id_counter =
      b.relations_simplified_id_counter :=
  foldl_preserves batch_add_one_way_dep (fun s => s.relations_simplified_id_counter)
    (fun a wd => by unfold batch_add_one_way_dep; split <;> rfl) ws b

/-- `batch_add_relation_deps` keeps the main relation list. -/
theorem batch_add_relation_deps_main_relations (b : BatchManagerState)
    (rs : List OsmRelation) :
    (batch_add_relation_deps b rs).main_relations = b.main_relations :=
  foldl_preserves batch_add_one_relation_dep (fun s => s.main_relations)
    (fun a rd => by unfold batch_add_one_relation_dep; split <;> rfl) rs b

/-- `batch_add_relation_deps` keeps the relation simplified-id allocator. -/
theorem batch_add_relation_deps_relations_counter (b : BatchManagerState)
    (rs : List OsmRelation) :
    (batch_add_relation_deps b rs).relations_simplified_id_counter =
      b.relations_simplified_id_counter :=
  foldl_preserves batch_add_one_relation_dep (fun s => s.relations_simplified_id_counter)
    (fun a rd => by unfold batch_add_one_relation_dep; split <;> rfl) rs b

/-- Enqueueing a main way appends it under the next simplified id. -/
theorem batch_add_main_way_main_ways (b : BatchManagerState) (way_dict : OsmWay)
    (way_nodes : List OsmNode) :
    (batch_add_main_way b way_dict way_nodes).main_ways =
      b.main_ways ++ [(b.ways_simplified_id_counter, way_dict)] := by
  unfold batch_add_main_way
  dsimp only
  rw [batch_add_node_deps_main_ways, batch_add_node_deps_ways_counter]

/-- Enqueueing a main way keeps the main relation list. -/
theorem batch_add_main_way_main_relations (b : BatchManagerState) (way_dict : OsmWay)
    (way_nodes : List OsmNode) :
    (batch_add_main_way b way_dict way_nodes).main_relations = b.main_relations := by
  unfold batch_add_main_way
  dsimp only
  rw [batch_add_node_deps_main_relations]

/-- Enqueueing a main relation appends it under the next simplified id. -/
theorem batch_add_main_relation_main_relations (b : BatchManagerState)
    (relation_dict : OsmRelation) (nds : List OsmNode) (ws : List OsmWay)
    (rs : List OsmRelation) :
    (batch_add_main_relation b relation_dict nds ws rs).main_relations =
      b.main_relations ++ [(b.relations_simplified_id_counter, relation_dict)] := by
  unfold batch_add_main_relation
  dsimp only
  rw [batch_add_relation_deps_main_relations, batch_add_way_deps_main_relations,
    batch_add_node_deps_main_relations, batch_add_relation_deps_relations_counter,
    batch_add_way_deps_relations_counter, batch_add_node_deps_relations_counter]

/-- The first component returned by the way resolver is the way itself. -/
theorem get_way_and_its_dependencies_fst (osm_indexer_map : List (Nat × OsmIndex))
    (num_shards : Nat) (way : OsmWay) :
    (get_way_and_its_dependencies_as_dict osm_indexer_map num_shards way).1 = way := rfl

/-- The first component returned by the relation resolver is the relation
itself. -/
theorem get_relation_and_its_dependencies_fst (osm_indexer_map : List (Nat × OsmIndex))
    (num_shards : Nat) (relation : OsmRelation) :
    (get_relation_and_its_dependencies_as_dict osm_indexer_map num_shards relation).1 =
      relation := rfl

/-- With a worker count dividing the shard count, the ceiling batch size is
the exact quotient. -/
theorem thread_batch_size_of_dvd (S T : Nat) (hT : 0 < T) (hdvd : T ∣ S) :
    thread_batch_size S T = S / T := by
  obtain ⟨k, hk⟩ := hdvd
  subst hk
  unfold thread_batch_size
  rw [Nat.mul_div_cancel_left k hT]
  have h1 : T * k + T - 1 = T * k + (T - 1) := by omega
  rw [h1, Nat.mul_add_div hT k (T - 1), Nat.div_eq_of_lt (by omega)]
  omega

/-- Characterization of the shard indices a worker owns, under shard
divisibility. -/
theorem mem_owned_shard_indices (S T w s : Nat) (hT : 0 < T) (hdvd : T ∣ S) :
    s ∈ owned_shard_indices S T w ↔
      w * (S / T) ≤ s ∧ s < (w + 1) * (S / T) := by
  unfold owned_shard_indices
  rw [thread_batch_size_of_dvd S T hT hdvd, List.mem_range'_1, Nat.succ_mul]

/-- The relation-member step never touches the relation dependency map (the
recursion into relation members is commented out in the source). -/
theorem step_relations_map (osm_indexer_map : List (Nat × OsmIndex))
    (num_shards member_id : Nat) (member_type : MemberType) (T : Int)
    (acc : RelationDepsMaps) :
    (append_relation_dependency_objects_dicts osm_indexer_map num_shards
      member_id member_type T acc).relations_map = acc.relations_map := by
  unfold append_relation_dependency_objects_dicts
  cases member_type with
  | n => dsimp only; split <;> rfl
  | w =>
    dsimp only
    split
    · rfl
    · split <;> rfl
  | r => rfl

/-- The relation-member step keeps every existing way-map entry. -/
theorem step_ways_map_mono (osm_indexer_map : List (Nat × OsmIndex))
    (num_shards member_id : Nat) (member_type : MemberType) (T : Int)
    (acc : RelationDepsMaps) (p : Nat × OsmWay) (hp : p ∈ acc.ways_map) :
    p ∈ (append_relation_dependency_objects_dicts osm_indexer_map num_shards
      member_id member_type T acc).ways_map := by
  unfold append_relation_dependency_objects_dicts
  cases member_type with
  | n => dsimp only; split <;> exact hp
  | w =>
    dsimp only
    split
    case isTrue h => exact hp
    case isFalse h =>
      cases hl : lookup_way_as_of osm_indexer_map num_shards member_id T with
      | none => exact hp
      | some wd =>
        dsimp only
        rw [Bool.not_eq_true] at h
        rw [alist_set_of_not_mem _ _ _ h]
        exact List.mem_append_left _ hp
  | r => exact hp

/-- The relation-member step keeps every present way-map key present. -/
theorem step_ways_alist_mem_mono (osm_indexer_map : List (Nat × OsmIndex))
    (num_shards member_id : Nat) (member_type : MemberType) (T : Int)
    (acc : RelationDepsMaps) (k : Nat) (h : alist_mem acc.ways_map k = true) :
    alist_mem (append_relation_dependency_objects_dicts osm_indexer_map num_shards
      member_id member_type T acc).ways_map k = true := by
  unfold append_relation_dependency_objects_dicts
  cases member_type with
  | n => dsimp only; split <;> exact h
  | w =>
    dsimp only
    split
    case isTrue h2 => exact h
    case isFalse h2 =>
      cases hl : lookup_way_as_of osm_indexer_map num_shards member_id T with
      | none => exact h
      | some wd =>
        dsimp only
        exact alist_mem_alist_set _ _ _ _ h
  | r => exact h

/-- Folding the member step keeps every present way-map key present. -/
theorem fold_ways_alist_mem_mono (osm_indexer_map : List (Nat × OsmIndex))
    (num_shards : Nat) (T : Int) :
    ∀ (members : List RelMember) (acc : RelationDepsMaps) (k : Nat),
      alist_mem acc.ways_map k = true →
      alist_mem ((members.foldl (fun acc m =>
        append_relation_dependency_objects_dicts osm_indexer_map num_shards
          m.ref m.type T acc) acc)).ways_map k = true := by
  intro members
  induction members with
  | nil => intro acc k h; exact h
  | cons m ms ih =>
    intro acc k h
    rw [List.foldl_cons]
    exact ih _ k (step_ways_alist_mem_mono _ _ _ _ _ _ k h)

/-- Processing a way member leaves its key present in the way map unless its
timestamped lookup missed. -/
theorem step_way_member_complete (osm_indexer_map : List (Nat × OsmIndex))
    (num_shards member_id : Nat) (T : Int) (acc : RelationDepsMaps) :
    alist_mem (append_relation_dependency_objects_dicts osm_indexer_map num_shards
      member_id MemberType.w T acc).ways_map member_id = true ∨
    lookup_way_as_of osm_indexer_map num_shards member_id T = none := by
  unfold append_relation_dependency_objects_dicts
  dsimp only
  split
  case isTrue h => left; exact h
  case isFalse h =>
    cases hl : lookup_way_as_of osm_indexer_map num_shards member_id T with
    | none => right; rfl
    | some wd =>
      left
      dsimp only
      exact alist_mem_alist_set_self _ _ _

/-- One relation-member step preserves the soundness invariant: every
way-map entry is a timestamped lookup hit on an allowed way-member id, and
every node-map entry is a located timestamped lookup hit originating from an
allowed node member or from the node list of a fetched way. -/
theorem step_invariant (osm_indexer_map : List (Nat × OsmIndex)) (num_shards : Nat)
    (T : Int) (allowN allowW : Nat → Prop) (acc : RelationDepsMaps) (m : RelMember)
    (hmN : m.type = MemberType.n → allowN m.ref)
    (hmW : m.type = MemberType.w → allowW m.ref)
    (hW : ∀ p ∈ acc.ways_map,
      lookup_way_as_of osm_indexer_map num_shards p.1 T = some p.2 ∧ allowW p.1)
    (hN : ∀ p ∈ acc.nodes_map,
      lookup_node_as_of osm_indexer_map num_shards p.1 T = some p.2 ∧
      is_node_dict_with_location p.2 = true ∧
      (allowN p.1 ∨ ∃ q ∈ acc.ways_map, p.1 ∈ q.2.nodes)) :
    (∀ p ∈ (append_relation_dependency_objects_dicts osm_indexer_map num_shards
        m.ref m.type T acc).ways_map,
      lookup_way_as_of osm_indexer_map num_shards p.1 T = some p.2 ∧ allowW p.1) ∧
    (∀ p ∈ (append_relation_dependency_objects_dicts osm_indexer_map num_shards
        m.ref m.type T acc).nodes_map,
      lookup_node_as_of osm_indexer_map num_shards p.1 T = some p.2 ∧
      is_node_dict_with_location p.2 = true ∧
      (allowN p.1 ∨ ∃ q ∈ (append_relation_dependency_objects_dicts osm_indexer_map
        num_shards m.ref m.type T acc).ways_map, p.1 ∈ q.2.nodes)) := by
  unfold append_relation_dependency_objects_dicts
  cases htype : m.type with
  | n =>
    dsimp only
    split
    case isTrue h => exact ⟨hW, hN⟩
    case isFalse h =>
      refine ⟨hW, ?_⟩
      intro p hp
      rcases mem_append_node_to_map _ _ _ _ _ _ hp with h' | ⟨e1, e2, e3⟩
      · obtain ⟨l1, l2, l3⟩ := hN p h'
        exact ⟨l1, l2, l3⟩
      · refine ⟨?_, e3, Or.inl ?_⟩
        · rw [e1]; exact e2
        · rw [e1]; exact hmN htype
  | w =>
    dsimp only
    split
    case isTrue h => exact ⟨hW, hN⟩
    case isFalse h =>
      cases hl : lookup_way_as_of osm_indexer_map num_shards m.ref T with
      | none => exact ⟨hW, hN⟩
      | some wd =>
        dsimp only
        rw [Bool.not_eq_true] at h
        have hset : alist_set acc.ways_map m.ref wd = acc.ways_map ++ [(m.ref, wd)] :=
          alist_set_of_not_mem _ _ _ h
        constructor
        · intro p hp
          rw [hset] at hp
          rcases List.mem_append.mp hp with h' | h'
          · exact hW p h'
          · have hpe : p = (m.ref, wd) := by simpa using h'
            rw [hpe]
            exact ⟨hl, hmW htype⟩
        · intro p hp
          rcases mem_foldl_append_node_to_map _ _ _ _ _ _ hp with h' | ⟨e1, e2, e3⟩
          · obtain ⟨l1, l2, l3⟩ := hN p h'
            refine ⟨l1, l2, ?_⟩
            rcases l3 with l3 | ⟨q, hq, hqn⟩
            · exact Or.inl l3
            · refine Or.inr ⟨q, ?_, hqn⟩
              rw [hset]
              exact List.mem_append_left _ hq
          · refine ⟨e2, e3, Or.inr ⟨(m.ref, wd), ?_, e1⟩⟩
            rw [hset]
            exact List.mem_append_right _ (by simp)
  | r => exact ⟨hW, hN⟩

/-- Folding the member step over a member list preserves the soundness
invariant and decides every way member: at the end each way member's key is
in the way map or its timestamped lookup missed, and the relation map stays
empty. -/
theorem c5_fold_invariant (osm_indexer_map : List (Nat × OsmIndex))
    (num_shards : Nat) (T : Int) (allowN allowW : Nat → Prop) :
    ∀ (members : List RelMember) (acc : RelationDepsMaps),
      (∀ m ∈ members, m.type = MemberType.n → allowN m.ref) →
      (∀ m ∈ members, m.type = MemberType.w → allowW m.ref) →
      (∀ p ∈ acc.ways_map,
        lookup_way_as_of osm_indexer_map num_shards p.1 T = some p.2 ∧ allowW p.1) →
      (∀ p ∈ acc.nodes_map,
        lookup_node_as_of osm_indexer_map num_shards p.1 T = some p.2 ∧
        is_node_dict_with_location p.2 = true ∧
        (allowN p.1 ∨ ∃ q ∈ acc.ways_map, p.1 ∈ q.2.nodes)) →
      ((∀ p ∈ (members.foldl (fun acc m =>
          append_relation_dependency_objects_dicts osm_indexer_map num_shards
            m.ref m.type T acc) acc).ways_map,
          lookup_way_as_of osm_indexer_map num_shards p.1 T = some p.2 ∧ allowW p.1) ∧
        (∀ p ∈ (members.foldl (fun acc m =>
          append_relation_dependency_objects_dicts osm_indexer_map num_shards
            m.ref m.type T acc) acc).nodes_map,
          lookup_node_as_of osm_indexer_map num_shards p.1 T = some p.2 ∧
          is_node_dict_with_location p.2 = true ∧
          (allowN p.1 ∨ ∃ q ∈ (members.foldl (fun acc m =>
            append_relation_dependency_objects_dicts osm_indexer_map num_shards
              m.ref m.type T acc) acc).ways_map, p.1 ∈ q.2.nodes)) ∧
        (∀ m ∈ members, m.type = MemberType.w →
          alist_mem (members.foldl (fun acc m =>
            append_relation_dependency_objects_dicts osm_indexer_map num_shards
              m.ref m.type T acc) acc).ways_map m.ref = true ∨
          lookup_way_as_of osm_indexer_map num_shards m.ref T = none)) := by
  intro members
  induction members with
  | nil =>
    intro acc hAN hAW hW hN
    exact ⟨hW, hN, fun m hm => absurd hm (List.not_mem_nil m)⟩
  | cons m ms ih =>
    intro acc hAN hAW hW hN
    rw [List.foldl_cons]
    have hstep := step_invariant osm_indexer_map num_shards T allowN allowW acc m
      (hAN m (List.mem_cons_self m ms)) (hAW m (List.mem_cons_self m ms)) hW hN
    have hrest := ih (append_relation_dependency_objects_dicts osm_indexer_map
        num_shards m.ref m.type T acc)
      (fun m2 hm2 => hAN m2 (List.mem_cons_of_mem m hm2))
      (fun m2 hm2 => hAW m2 (List.mem_cons_of_mem m hm2))
      hstep.1 hstep.2
    refine ⟨hrest.1, hrest.2.1, ?_⟩
    intro m2 hm2 ht2
    rcases List.mem_cons.mp hm2 with he | hm2'
    · subst he
      have hhead := step_way_member_complete osm_indexer_map num_shards m2.ref T acc
      rcases (by rw [← ht2] at hhead; exact hhead :
          alist_mem (append_relation_dependency_objects_dicts osm_indexer_map
            num_shards m2.ref m2.type T acc).ways_map m2.ref = true ∨
          lookup_way_as_of osm_indexer_map num_shards m2.ref T = none) with hh | hh
      · exact Or.inl (fold_ways_alist_mem_mono _ _ _ ms _ m2.ref hh)
      · exact Or.inr hh
    · exact hrest.2.2 m2 hm2' ht2

/-- A dict entry survives an assignment whenever its key differs from the
assigned key or its value equals the assigned value. -/
theorem mem_alist_set_of_mem {α : Type} (m : List (Nat × α)) (k : Nat) (v : α)
    (p : Nat × α) (hp : p ∈ m) (hv : p.1 = k → p.2 = v) : p ∈ alist_set m k v := by
  unfold alist_set
  split
  case isTrue h =>
    refine List.mem_map.mpr ⟨p, hp, ?_⟩
    by_cases hk : (p.1 == k) = true
    · rw [if_pos hk]
      simp only [beq_iff_eq] at hk
      rw [← hk, ← hv hk]
    · rw [if_neg hk]
  case isFalse h =>
    exact List.mem_append_left _ hp

/-- The assigned pair is an entry of the dict after assignment. -/
theorem mem_alist_set_self {α : Type} (m : List (Nat × α)) (k : Nat) (v : α) :
    (k, v) ∈ alist_set m k v := by
  unfold alist_set
  split
  case isTrue h =>
    rw [alist_mem_iff] at h
    obtain ⟨p, hp, hpk⟩ := h
    exact List.mem_map.mpr ⟨p, hp, by rw [if_pos (by simp [hpk])]⟩
  case isFalse h =>
    exact List.mem_append_right _ (by simp)

/-- A node-map entry that is its own timestamped lookup result survives any
further map append: the lookup is deterministic, so an overwrite of the same
key writes back the same value. -/
theorem append_node_to_map_stable (osm_indexer_map : List (Nat × OsmIndex))
    (num_shards k : Nat) (ts : Int) (nm : List (Nat × OsmNode))
    (nid : Nat) (nd : OsmNode) (hp : (nid, nd) ∈ nm)
    (hhit : lookup_node_as_of osm_indexer_map num_shards nid ts = some nd) :
    (nid, nd) ∈ append_node_dict_by_id_and_timestamp_to_map osm_indexer_map
      num_shards k ts nm := by
  unfold append_node_dict_by_id_and_timestamp_to_map
  cases hl : lookup_node_as_of osm_indexer_map num_shards k ts with
  | none => exact hp
  | some d =>
    dsimp only
    by_cases hloc : is_node_dict_with_location d = true
    · rw [if_pos hloc]
      refine mem_alist_set_of_mem _ _ _ _ hp ?_
      intro he
      dsimp only at he
      rw [← he] at hl
      rw [hhit] at hl
      exact Option.some.inj hl
    · rw [if_neg hloc]; exact hp

/-- Folding the node-map append keeps every entry that is its own
timestamped lookup result. -/
theorem fold_append_node_to_map_stable (osm_indexer_map : List (Nat × OsmIndex))
    (num_shards : Nat) (ts : Int) :
    ∀ (l : List Nat) (nm : List (Nat × OsmNode)) (nid : Nat) (nd : OsmNode),
      (nid, nd) ∈ nm →
      lookup_node_as_of osm_indexer_map num_shards nid ts = some nd →
      (nid, nd) ∈ l.foldl
        (fun acc nid2 =>
          append_node_dict_by_id_and_timestamp_to_map osm_indexer_map num_shards
            nid2 ts acc) nm := by
  intro l
  induction l with
  | nil => intro nm nid nd hp _; exact hp
  | cons x xs ih =>
    intro nm nid nd hp hhit
    rw [List.foldl_cons]
    exact ih _ nid nd (append_node_to_map_stable _ _ x _ _ nid nd hp hhit) hhit

/-- Appending a node id whose timestamped lookup yields a located node puts
that hit into the node map. -/
theorem append_node_to_map_hit (osm_indexer_map : List (Nat × OsmIndex))
    (num_shards nid : Nat) (ts : Int) (nm : List (Nat × OsmNode)) (nd : OsmNode)
    (hhit : lookup_node_as_of osm_indexer_map num_shards nid ts = some nd)
    (hloc : is_node_dict_with_location nd = true) :
    (nid, nd) ∈ append_node_dict_by_id_and_timestamp_to_map osm_indexer_map
      num_shards nid ts nm := by
  unfold append_node_dict_by_id_and_timestamp_to_map
  rw [hhit]
  dsimp only
  rw [if_pos hloc]
  exact mem_alist_set_self _ _ _

/-- Folding the node-map append over a list of node ids includes the located
timestamped lookup hit of every id of the list. -/
theorem fold_append_node_to_map_hit (osm_indexer_map : List (Nat × OsmIndex))
    (num_shards : Nat) (ts : Int) :
    ∀ (l : List Nat) (nm : List (Nat × OsmNode)) (nid : Nat) (nd : OsmNode),
      nid ∈ l →
      lookup_node_as_of osm_indexer_map num_shards nid ts = some nd →
      is_node_dict_with_location nd = true →
      (nid, nd) ∈ l.foldl
        (fun acc nid2 =>
          append_node_dict_by_id_and_timestamp_to_map osm_indexer_map num_shards
            nid2 ts acc) nm := by
  intro l
  induction l with
  | nil => intro nm nid nd h; exact absurd h (List.not_mem_nil nid)
  | cons x xs ih =>
    intro nm nid nd hmem hhit hloc
    rw [List.foldl_cons]
    rcases List.mem_cons.mp hmem with he | hm
    · subst he
      exact fold_append_node_to_map_stable _ _ _ xs _ nid nd
        (append_node_to_map_hit _ _ nid _ _ nd hhit hloc) hhit
    · exact ih _ nid nd hm hhit hloc

/-- The relation-member step keeps every node-map entry that is its own
timestamped lookup result. -/
theorem step_nodes_stable (osm_indexer_map : List (Nat × OsmIndex))
    (num_shards member_id : Nat) (member_type : MemberType) (T : Int)
    (acc : RelationDepsMaps) (nid : Nat) (nd : OsmNode)
    (hp : (nid, nd) ∈ acc.nodes_map)
    (hhit : lookup_node_as_of osm_indexer_map num_shards nid T = some nd) :
    (nid, nd) ∈ (append_relation_dependency_objects_dicts osm_indexer_map
      num_shards member_id member_type T acc).nodes_map := by
  unfold append_relation_dependency_objects_dicts
  cases member_type with
  | n =>
    dsimp only
    split
    case isTrue h => exact hp
    case isFalse h => exact append_node_to_map_stable _ _ _ _ _ _ _ hp hhit
  | w =>
    dsimp only
    split
    case isTrue h => exact hp
    case isFalse h =>
      cases hl : lookup_way_as_of osm_indexer_map num_shards member_id T with
      | none => exact hp
      | some wd =>
        dsimp only
        exact fold_append_node_to_map_stable _ _ _ wd.nodes _ nid nd hp hhit
  | r => exact hp

/-- One relation-member step preserves the expansion-completeness invariant:
for every way in the way map, every node id of its node list whose
timestamped lookup yields a located node is present in the node map. -/
theorem step_expansion (osm_indexer_map : List (Nat × OsmIndex)) (num_shards : Nat)
    (T : Int) (acc : RelationDepsMaps) (m : RelMember)
    (hInv : ∀ q ∈ acc.ways_map, ∀ nid ∈ q.2.nodes, ∀ nd : OsmNode,
      lookup_node_as_of osm_indexer_map num_shards nid T = some nd →
      is_node_dict_with_location nd = true →
      (nid, nd) ∈ acc.nodes_map) :
    ∀ q ∈ (append_relation_dependency_objects_dicts osm_indexer_map num_shards
        m.ref m.type T acc).ways_map,
      ∀ nid ∈ q.2.nodes, ∀ nd : OsmNode,
        lookup_node_as_of osm_indexer_map num_shards nid T = some nd →
        is_node_dict_with_location nd = true →
        (nid, nd) ∈ (append_relation_dependency_objects_dicts osm_indexer_map
          num_shards m.ref m.type T acc).nodes_map := by
  unfold append_relation_dependency_objects_dicts
  cases htype : m.type with
  | n =>
    dsimp only
    split
    case isTrue h => exact hInv
    case isFalse h =>
      intro q hq nid hnid nd hhit hloc
      exact append_node_to_map_stable _ _ _ _ _ _ _
        (hInv q hq nid hnid nd hhit hloc) hhit
  | w =>
    dsimp only
    split
    case isTrue h => exact hInv
    case isFalse h =>
      cases hl : lookup_way_as_of osm_indexer_map num_shards m.ref T with
      | none => exact hInv
      | some wd =>
        dsimp only
        rw [Bool.not_eq_true] at h
        have hset : alist_set acc.ways_map m.ref wd = acc.ways_map ++ [(m.ref, wd)] :=
          alist_set_of_not_mem _ _ _ h
        intro q hq nid hnid nd hhit hloc
        rw [hset] at hq
        rcases List.mem_append.mp hq with h' | h'
        · exact fold_append_node_to_map_stable _ _ _ wd.nodes _ nid nd
            (hInv q h' nid hnid nd hhit hloc) hhit
        · have hqe : q = (m.ref, wd) := by simpa using h'
          rw [hqe] at hnid
          exact fold_append_node_to_map_hit _ _ _ wd.nodes _ nid nd hnid hhit hloc
  | r => exact hInv

/-- Folding the member step preserves the expansion-completeness invariant
of `step_expansion` over a whole member list. -/
theorem c5_fold_expansion (osm_indexer_map : List (Nat × OsmIndex))
    (num_shards : Nat) (T : Int) :
    ∀ (members : List RelMember) (acc : RelationDepsMaps),
      (∀ q ∈ acc.ways_map, ∀ nid ∈ q.2.nodes, ∀ nd : OsmNode,
        lookup_node_as_of osm_indexer_map num_shards nid T = some nd →
        is_node_dict_with_location nd = true →
        (nid, nd) ∈ acc.nodes_map) →
      (∀ q ∈ (members.foldl (fun acc m =>
          append_relation_dependency_objects_dicts osm_indexer_map num_shards
            m.ref m.type T acc) acc).ways_map,
        ∀ nid ∈ q.2.nodes, ∀ nd : OsmNode,
          lookup_node_as_of osm_indexer_map num_shards nid T = some nd →
          is_node_dict_with_location nd = true →
          (nid, nd) ∈ (members.foldl (fun acc m =>
            append_relation_dependency_objects_dicts osm_indexer_map num_shards
              m.ref m.type T acc) acc).nodes_map) := by
  intro members
  induction members with
  | nil => intro acc h; exact h
  | cons m ms ih =>
    intro acc h
    rw [List.foldl_cons]
    exact ih _ (step_expansion osm_indexer_map num_shards T acc m h)

/-! ## Claim theorems -/

/-- Claim C8, confirmed: at startup the shard count is first raised to the
worker count when lower; after the adjustment the program fails fatally when
the shard count is not divisible by the worker count, and proceeds with the
adjusted count otherwise. -/
theorem c8_startup_shard_validation (num_threads num_db_shards : Nat) :
    (num_db_shards < num_threads →
      adjust_num_db_shards num_threads num_db_shards = num_threads) ∧
    (num_threads ≤ num_db_shards →
      adjust_num_db_shards num_threads num_db_shards = num_db_shards) ∧
    (¬ num_threads ∣ adjust_num_db_shards num_threads num_db_shards →
      validate_shard_config num_threads num_db_shards =
        Except.error "--num_db_shards must be divisible by --num_threads") ∧
    (num_threads ∣ adjust_num_db_shards num_threads num_db_shards →
      validate_shard_config num_threads num_db_shards =
        Except.ok (adjust_num_db_shards num_threads num_db_shards)) := by
  refine ⟨?_, ?_, ?_, ?_⟩
  · intro h; unfold adjust_num_db_shards; rw [if_pos h]
  · intro h; unfold adjust_num_db_shards; rw [if_neg (Nat.not_lt.mpr h)]
  · intro h
    have hmod : adjust_num_db_shards num_threads num_db_shards % num_threads ≠ 0 :=
      fun h0 => h (Nat.dvd_iff_mod_eq_zero.mpr h0)
    unfold validate_shard_config
    dsimp only
    rw [if_pos hmod]
  · intro h
    have hmod : ¬ adjust_num_db_shards num_threads num_db_shards % num_threads ≠ 0 :=
      not_not_intro (Nat.dvd_iff_mod_eq_zero.mp h)
    unfold validate_shard_config
    dsimp only
    rw [if_neg hmod]

/-- Witness for C8 at concrete inputs: 2 shards with 3 workers are raised to
3 and accepted; 5 shards with 3 workers fail; 6 shards with 3 workers
proceed. -/
theorem c8_startup_shard_validation_witness :
    adjust_num_db_shards 3 2 = 3 ∧
    validate_shard_config 3 5 =
      Except.error "--num_db_shards must be divisible by --num_threads" ∧
    validate_shard_config 3 6 = Except.ok 6 := by
  refine ⟨(c8_startup_shard_validation 3 2).1 (by decide), ?_, ?_⟩
  · exact (c8_startup_shard_validation 3 5).2.2.1 (by decide)
  · exact (c8_startup_shard_validation 3 6).2.2.2 (by decide)

/-- Routing with a single open store under key 0 returns that store. -/
theorem get_osm_indexer_by_id_single (s : OsmIndex) (num_shards id : Nat) :
    get_osm_indexer_by_id [(0, s)] num_shards id = some s := by
  unfold get_osm_indexer_by_id
  have hl : ([(0, s)] : List (Nat × OsmIndex)).length = 1 := rfl
  rw [if_pos hl]
  rfl

/-- Claim C10, confirmed: with exactly one open store under key 0 (the
merged-shards case) every dependency lookup returns that store for every
id — the result does not depend on the id — and the hash shard function
determines the route only when the map does not have exactly one store. -/
theorem c10_merged_single_store_routing :
    (∀ (s : OsmIndex) (num_shards id : Nat),
      get_osm_indexer_by_id [(0, s)] num_shards id = some s) ∧
    (∀ (s : OsmIndex) (num_shards id id2 : Nat),
      get_osm_indexer_by_id [(0, s)] num_shards id =
        get_osm_indexer_by_id [(0, s)] num_shards id2) ∧
    (∀ (m : List (Nat × OsmIndex)) (num_shards id : Nat), m.length ≠ 1 →
      get_osm_indexer_by_id m num_shards id =
        alist_get m (get_uniformly_shard_index_from_id id num_shards)) := by
  refine ⟨?_, ?_, ?_⟩
  · intro s num_shards id
    exact get_osm_indexer_by_id_single s num_shards id
  · intro s num_shards id id2
    rw [get_osm_indexer_by_id_single, get_osm_indexer_by_id_single]
  · intro m num_shards id h
    unfold get_osm_indexer_by_id
    rw [if_neg h]

/-- Witness for C10 at concrete inputs: the merged store answers any id;
with two open stores the hash shard picks the route. -/
theorem c10_merged_single_store_routing_witness :
    get_osm_indexer_by_id [(0, index_ab)] 7 12345 = some index_ab ∧
    get_osm_indexer_by_id [(0, OsmIndex.empty), (1, index_ab)] 2 10 =
      alist_get [(0, OsmIndex.empty), (1, index_ab)]
        (get_uniformly_shard_index_from_id 10 2) :=
  ⟨c10_merged_single_store_routing.1 index_ab 7 12345,
    c10_merged_single_store_routing.2.2 [(0, OsmIndex.empty), (1, index_ab)] 2 10
      (by decide)⟩

/-- Claim C6, confirmed: every node version is emitted directly as one
JSON-lines record without touching the batch buffer; its geometry is a
Point from the node's own location when valid and null otherwise, and an
invisible node (which per the spec's data model carries no location) is
emitted with null geometry. -/
theorem c6_node_direct_emission (cfg : HistoryHandlerCfg)
    (st : HistoryHandlerState) (node : OsmNode) :
    (history_node cfg st node).batch = st.batch ∧
    (history_node cfg st node).out_ways = st.out_ways ∧
    (history_node cfg st node).out_relations = st.out_relations ∧
    (history_node cfg st node).out_nodes =
      st.out_nodes ++ [⟨node, node_geometry node⟩] ∧
    (∀ lon lat : Int, node.location = some (lon, lat) →
      node_geometry node = some (Geometry.point lon lat)) ∧
    (node.location = none → node_geometry node = none) ∧
    (node.visible = false → node.location = none → node_geometry node = none) := by
  refine ⟨rfl, rfl, rfl, rfl, ?_, ?_, ?_⟩
  · intro lon lat h; unfold node_geometry; rw [h]
  · intro h; unfold node_geometry; rw [h]
  · intro _ h; unfold node_geometry; rw [h]

/-- Witness for C6 at a concrete input: a deleted node version is emitted
with null geometry. -/
theorem c6_node_direct_emission_witness :
    nodeDeleted.visible = false ∧
    (history_node cfgHist1 HistoryHandlerState.init nodeDeleted).out_nodes =
      [⟨nodeDeleted, none⟩] ∧
    node_geometry nodeDeleted = none := by
  have h := c6_node_direct_emission cfgHist1 HistoryHandlerState.init nodeDeleted
  refine ⟨rfl, ?_, h.2.2.2.2.2.2 rfl rfl⟩
  rw [h.2.2.2.1]
  rfl

/-- Claim C9, corrected: the commit check of the indexing pass runs only for
records routed to an owned shard, so a save of every owned store happens
exactly when such a record brings the per-kind counter to a multiple of
`batch_size_to_commit`; a boundary record routed elsewhere triggers no
commit. -/
theorem c9_commit_cadence (cfg : IndexCreatorCfg) (st : IndexCreatorState)
    (item : OsmStreamItem) :
    (index_step cfg st item).processing_counter =
      st.processing_counter.inc item.entity_type ∧
    (index_step cfg st item).save_events =
      st.save_events +
        (if index_batch_index_for cfg
              ((st.processing_counter.inc item.entity_type).get item.entity_type)
              item.osm_id ∈ cfg.owned_shards ∧
            (st.processing_counter.inc item.entity_type).get item.entity_type %
              cfg.batch_size_to_commit = 0
          then 1 else 0) := by
  unfold index_step index_process_osm_object index_log_processing index_commit_if_needed
  dsimp only
  by_cases hm : index_batch_index_for cfg
      ((st.processing_counter.inc item.entity_type).get item.entity_type)
      item.osm_id ∈ cfg.owned_shards
  · rw [if_pos hm]
    by_cases hz : (st.processing_counter.inc item.entity_type).get item.entity_type %
        cfg.batch_size_to_commit = 0
    · rw [if_pos hz, if_pos ⟨hm, hz⟩]
      exact ⟨rfl, rfl⟩
    · rw [if_neg hz, if_neg (fun hc => hz hc.2)]
      exact ⟨rfl, rfl⟩
  · rw [if_neg hm, if_neg (fun hc => hm hc.1)]
    exact ⟨rfl, rfl⟩

/-- Counterexample for C9 as stated: a worker owning only shard 1 in counter
mode with commit batch size 2 processes six records, never commits, and
leaves three records buffered uncommitted — more than `B_commit`. -/
theorem c9_counterexample :
    cfg9.batch_size_to_commit = 2 ∧
    (index_apply_file cfg9 IndexCreatorState.init six_nodes_stream).processing_counter.nodes = 6 ∧
    (index_apply_file cfg9 IndexCreatorState.init six_nodes_stream).save_events = 0 ∧
    (index_apply_file cfg9 IndexCreatorState.init six_nodes_stream).stored.length = 3 := by
  decide

/-- Claim C1, corrected: in hash mode the shard index is a function of the
id alone — identical across workers and counter values — and resolution,
when several stores are open, routes to exactly that hash shard. -/
theorem c1_hash_mode_shard_agreement :
    (∀ (cfg : IndexCreatorCfg) (c1 c2 id : Nat),
      cfg.is_id_hash_partitioned_shards = true →
      index_batch_index_for cfg c1 id = index_batch_index_for cfg c2 id) ∧
    (∀ (cfg : IndexCreatorCfg) (c id : Nat),
      cfg.is_id_hash_partitioned_shards = true →
      index_batch_index_for cfg c id =
        get_uniformly_shard_index_from_id id cfg.num_shards) ∧
    (∀ (m : List (Nat × OsmIndex)) (num_shards id : Nat), 1 < m.length →
      get_osm_indexer_by_id m num_shards id =
        alist_get m (get_uniformly_shard_index_from_id id num_shards)) := by
  refine ⟨?_, ?_, ?_⟩
  · intro cfg c1 c2 id h
    unfold index_batch_index_for
    rw [if_pos h, if_pos h]
  · intro cfg c id h
    unfold index_batch_index_for
    rw [if_pos h]
  · intro m num_shards id h
    unfold get_osm_indexer_by_id
    rw [if_neg (by omega : ¬ m.length = 1)]

/-- Witness for C1 at concrete inputs: hash mode gives the same shard for
counter values 1 and 999, equal to the hash shard; two open stores route by
the hash shard. -/
theorem c1_hash_mode_shard_agreement_witness :
    index_batch_index_for cfgHash4 1 42 = index_batch_index_for cfgHash4 999 42 ∧
    index_batch_index_for cfgHash4 5 42 = get_uniformly_shard_index_from_id 42 4 ∧
    get_osm_indexer_by_id [(0, OsmIndex.empty), (1, index_with_node_a)] 2 11 =
      alist_get [(0, OsmIndex.empty), (1, index_with_node_a)]
        (get_uniformly_shard_index_from_id 11 2) :=
  ⟨c1_hash_mode_shard_agreement.1 cfgHash4 1 999 42 rfl,
    c1_hash_mode_shard_agreement.2.1 cfgHash4 5 42 rfl,
    c1_hash_mode_shard_agreement.2.2 [(0, OsmIndex.empty), (1, index_with_node_a)]
      2 11 (by decide)⟩

/-- Counterexample for C1 as stated: in counter mode the indexing pass
stores node 10 (the first record) under shard 1, but the resolution pass
with two open stores routes id 10 to the hash shard 0, whose store does not
hold the version — the lookup misses although shard 1 holds it. -/
theorem c1_counterexample :
    cfgCounter2.is_id_hash_partitioned_shards = false ∧
    (index_apply_file cfgCounter2 IndexCreatorState.init
        [OsmStreamItem.node nodeA]).stored = [(1, OsmStreamItem.node nodeA)] ∧
    get_uniformly_shard_index_from_id nodeA.id cfgCounter2.num_shards = 0 ∧
    get_osm_indexer_by_id [(0, OsmIndex.empty), (1, index_with_node_a)]
      cfgCounter2.num_shards nodeA.id = some OsmIndex.empty ∧
    lookup_node_as_of [(0, OsmIndex.empty), (1, index_with_node_a)]
      cfgCounter2.num_shards nodeA.id nodeA.timestamp = none ∧
    get_node_from_index_by_timestamp index_with_node_a nodeA.id nodeA.timestamp =
      some nodeA := by
  decide

/-- Claim C2, corrected: a relation version is enqueued into the batch for
geometry building exactly when its member list holds at least one Relation
member; a relation without a Relation member bypasses the batch *and is not
emitted at all* — the handler's else branch produces no output record. -/
theorem c2_relation_batch_filter (cfg : HistoryHandlerCfg)
    (st : HistoryHandlerState) (rel : OsmRelation) :
    (has_relation_member rel = false →
      (history_relation cfg st rel).batch = st.batch ∧
      (history_relation cfg st rel).out_nodes = st.out_nodes ∧
      (history_relation cfg st rel).out_ways = st.out_ways ∧
      (history_relation cfg st rel).out_relations = st.out_relations ∧
      (history_relation cfg st rel).processing_counter =
        st.processing_counter.inc EntityType.relations) ∧
    (has_relation_member rel = true →
      (∃ sid, (sid, rel) ∈ (history_relation cfg st rel).batch.main_relations) ∨
      (∃ rec ∈ (history_relation cfg st rel).out_relations, rec.relation = rel)) := by
  constructor
  · intro h
    unfold history_relation
    dsimp only
    rw [if_neg (by rw [h]; exact Bool.false_ne_true)]
    exact ⟨rfl, rfl, rfl, rfl, rfl⟩
  · intro h
    unfold history_relation
    dsimp only
    rw [if_pos h]
    rw [get_relation_and_its_dependencies_fst]
    split
    · right
      unfold history_flush_relations
      dsimp only
      rw [batch_add_main_relation_main_relations, List.map_append]
      refine ⟨⟨rel, cfg.geometry_builder EntityType.relations
        st.batch.relations_simplified_id_counter⟩, ?_, rfl⟩
      refine List.mem_append_right _ (List.mem_append_right _ ?_)
      simp
    · left
      dsimp only
      rw [batch_add_main_relation_main_relations]
      exact ⟨st.batch.relations_simplified_id_counter,
        List.mem_append_right _ (by simp)⟩

/-- Witness for C2 (amended) at concrete inputs: a relation whose members
hold no Relation member is neither batched nor emitted; one holding a
Relation member is enqueued. -/
theorem c2_relation_batch_filter_witness :
    ((history_relation cfgHist2 HistoryHandlerState.init rel100).batch =
        HistoryHandlerState.init.batch ∧
      (history_relation cfgHist2 HistoryHandlerState.init rel100).out_relations = []) ∧
    (∃ sid, (sid, rel200) ∈
      (history_relation cfgHist2 HistoryHandlerState.init rel200).batch.main_relations) := by
  constructor
  · have h := (c2_relation_batch_filter cfgHist2 HistoryHandlerState.init rel100).1 (by decide)
    exact ⟨h.1, h.2.2.2.1⟩
  · have h := (c2_relation_batch_filter cfgHist2 HistoryHandlerState.init rel200).2 (by decide)
    rcases h with h | h
    · exact h
    · exfalso
      obtain ⟨rec, hmem, _⟩ := h
      have hout : (history_relation cfgHist2 HistoryHandlerState.init rel200).out_relations =
          [] := by decide
      rw [hout] at hmem
      exact absurd hmem (List.not_mem_nil rec)

/-- Counterexample for C2 as stated: the stream holds exactly one relation,
whose only member is a way; after the whole resolution pass the relation
output file is empty — the relation was dropped, not emitted with null
geometry. -/
theorem c2_counterexample :
    has_relation_member rel100 = false ∧
    (history_apply_file cfgHist1 HistoryHandlerState.init
        [OsmStreamItem.relation rel100]).out_relations = [] ∧
    (history_apply_file cfgHist1 HistoryHandlerState.init
        [OsmStreamItem.relation rel100]).batch.main_relations = [] ∧
    (history_apply_file cfgHist1 HistoryHandlerState.init
        [OsmStreamItem.relation rel100]).processing_counter.relations =
      cfgHist1.entities_number.relations := by
  decide

/-- Claim C3, corrected: the residual batch is flushed only through the
end-of-stream arm of `is_full` while handling the stream's final way (or a
final relation that carries a Relation member): that handler call empties
the batch and emits a record for the arriving entity and for every residual
main entity of its kind. -/
theorem c3_end_of_stream_flush (cfg : HistoryHandlerCfg) (st : HistoryHandlerState) :
    (∀ way : OsmWay,
      st.processing_counter.ways + 1 = cfg.entities_number.ways →
      (history_way cfg st way).batch.main_ways = [] ∧
      (∃ rec ∈ (history_way cfg st way).out_ways, rec.way = way) ∧
      (∀ p ∈ st.batch.main_ways,
        ∃ rec ∈ (history_way cfg st way).out_ways, rec.way = p.2)) ∧
    (∀ rel : OsmRelation,
      st.processing_counter.relations + 1 = cfg.entities_number.relations →
      has_relation_member rel = true →
      (history_relation cfg st rel).batch.main_relations = [] ∧
      (∃ rec ∈ (history_relation cfg st rel).out_relations, rec.relation = rel) ∧
      (∀ p ∈ st.batch.main_relations,
        ∃ rec ∈ (history_relation cfg st rel).out_relations, rec.relation = p.2)) := by
  constructor
  · intro way h
    unfold history_way
    dsimp only
    rw [get_way_and_its_dependencies_fst]
    have hfull : batch_is_full cfg.ways_batch_size cfg.entities_number
        (batch_add_main_way st.batch way
          (get_way_and_its_dependencies_as_dict cfg.osm_indexer_map cfg.num_shards way).2)
        EntityType.ways (st.processing_counter.inc EntityType.ways) = true := by
      unfold batch_is_full Counters.inc
      dsimp only
      rw [h]
      simp
    rw [if_pos hfull]
    unfold history_flush_ways
    dsimp only
    rw [batch_add_main_way_main_ways, List.map_append]
    refine ⟨rfl, ?_, ?_⟩
    · refine ⟨⟨way, cfg.geometry_builder EntityType.ways
        st.batch.ways_simplified_id_counter⟩, ?_, rfl⟩
      refine List.mem_append_right _ (List.mem_append_right _ ?_)
      simp
    · intro p hp
      refine ⟨⟨p.2, cfg.geometry_builder EntityType.ways p.1⟩, ?_, rfl⟩
      refine List.mem_append_right _ (List.mem_append_left _ ?_)
      exact List.mem_map.mpr ⟨p, hp, rfl⟩
  · intro rel h h2
    unfold history_relation
    dsimp only
    rw [if_pos h2]
    rw [get_relation_and_its_dependencies_fst]
    have hfull : batch_is_full cfg.ways_batch_size cfg.entities_number
        (batch_add_main_relation st.batch rel
          (get_relation_and_its_dependencies_as_dict cfg.osm_indexer_map cfg.num_shards rel).2.1
          (get_relation_and_its_dependencies_as_dict cfg.osm_indexer_map cfg.num_shards rel).2.2.1
          (get_relation_and_its_dependencies_as_dict cfg.osm_indexer_map cfg.num_shards rel).2.2.2)
        EntityType.relations (st.processing_counter.inc EntityType.relations) = true := by
      unfold batch_is_full Counters.inc
      dsimp only
      rw [h]
      simp
    rw [if_pos hfull]
    unfold history_flush_relations
    dsimp only
    rw [batch_add_main_relation_main_relations, List.map_append]
    refine ⟨rfl, ?_, ?_⟩
    · refine ⟨⟨rel, cfg.geometry_builder EntityType.relations
        st.batch.relations_simplified_id_counter⟩, ?_, rfl⟩
      refine List.mem_append_right _ (List.mem_append_right _ ?_)
      simp
    · intro p hp
      refine ⟨⟨p.2, cfg.geometry_builder EntityType.relations p.1⟩, ?_, rfl⟩
      refine List.mem_append_right _ (List.mem_append_left _ ?_)
      exact List.mem_map.mpr ⟨p, hp, rfl⟩

/-- Witness for C3 (amended) at a concrete input: a one-way stream whose
indexed total is one way — handling that way flushes the batch and emits the
way's record. -/
theorem c3_end_of_stream_flush_witness :
    (history_way cfgHist3 HistoryHandlerState.init way9).batch.main_ways = [] ∧
    (∃ rec ∈ (history_way cfgHist3 HistoryHandlerState.init way9).out_ways,
      rec.way = way9) := by
  have h := (c3_end_of_stream_flush cfgHist3 HistoryHandlerState.init).1 way9 (by decide)
  exact ⟨h.1, h.2.1⟩

/-- Counterexample for C3 as stated: a two-relation stream whose first
relation is batched and whose final relation carries no Relation member —
the stream ends with the batched relation still in the buffer and the
relation output file empty, so the residual batch was never flushed. -/
theorem c3_counterexample :
    (history_apply_file cfgHist2 HistoryHandlerState.init
        [OsmStreamItem.relation rel200, OsmStreamItem.relation rel100]).out_relations = [] ∧
    (history_apply_file cfgHist2 HistoryHandlerState.init
        [OsmStreamItem.relation rel200, OsmStreamItem.relation rel100]).batch.main_relations.map
      (fun p => p.2.id) = [200] ∧
    (history_apply_file cfgHist2 HistoryHandlerState.init
        [OsmStreamItem.relation rel200, OsmStreamItem.relation rel100]).processing_counter.relations =
      cfgHist2.entities_number.relations := by
  decide

/-- Claim C4, confirmed: resolving a way version at timestamp `T_w` looks
every referenced node id up with `GetAsOf(Node, id, T_w)` (through the shard
route), and the gathered dependency list is exactly the located lookup
results in the order of the way's node list. -/
theorem c4_way_dependency_resolution (osm_indexer_map : List (Nat × OsmIndex))
    (num_shards : Nat) (way : OsmWay) :
    (get_way_and_its_dependencies_as_dict osm_indexer_map num_shards way).1 = way ∧
    (get_way_and_its_dependencies_as_dict osm_indexer_map num_shards way).2 =
      way.nodes.filterMap
        (spec_way_node_dependency osm_indexer_map num_shards way.timestamp) := by
  refine ⟨rfl, ?_⟩
  unfold get_way_and_its_dependencies_as_dict
  dsimp only
  suffices h : ∀ (l : List Nat) (acc : List OsmNode),
      l.foldl
        (fun acc nid =>
          append_node_dict_by_id_and_timestamp_to_list osm_indexer_map num_shards
            nid way.timestamp acc) acc =
        acc ++ l.filterMap
          (spec_way_node_dependency osm_indexer_map num_shards way.timestamp) by
    simpa using h way.nodes []
  intro l
  induction l with
  | nil => intro acc; simp
  | cons x xs ih =>
    intro acc
    simp only [List.foldl_cons, List.filterMap_cons]
    rw [ih]
    cases hl : lookup_node_as_of osm_indexer_map num_shards x way.timestamp with
    | none =>
      simp only [append_node_dict_by_id_and_timestamp_to_list,
        spec_way_node_dependency, hl]
    | some nd =>
      simp only [append_node_dict_by_id_and_timestamp_to_list,
        spec_way_node_dependency, hl]
      by_cases hloc : is_node_dict_with_location nd = true
      · rw [if_pos hloc, if_pos hloc]
        simp
      · rw [if_neg hloc, if_neg hloc]

/-- Claim C7, confirmed: with `S` a multiple of `T`, worker `w` creates the
contiguous shard range `[w·S/T, (w+1)·S/T)`; distinct workers' ranges are
disjoint, all `S` shards are covered, and a record whose shard is outside
the worker's owned list is discarded (nothing stored, nothing committed). -/
theorem c7_worker_shard_ranges (S T w : Nat) (hT : 0 < T) (hdvd : T ∣ S)
    (hw : w < T) :
    owned_shard_indices S T w = List.range' (w * (S / T)) (S / T) ∧
    (∀ w2 s, w2 < T → w ≠ w2 → s ∈ owned_shard_indices S T w →
      s ∉ owned_shard_indices S T w2) ∧
    (∀ s, s < S → ∃ w2, w2 < T ∧ s ∈ owned_shard_indices S T w2) ∧
    (∀ (cfg : IndexCreatorCfg) (st : IndexCreatorState) (item : OsmStreamItem),
      cfg.owned_shards = owned_shard_indices S T w →
      index_batch_index_for cfg
          ((st.processing_counter.inc item.entity_type).get item.entity_type)
          item.osm_id ∉ cfg.owned_shards →
      (index_step cfg st item).stored = st.stored ∧
      (index_step cfg st item).save_events = st.save_events) := by
  refine ⟨?_, ?_, ?_, ?_⟩
  · unfold owned_shard_indices
    rw [thread_batch_size_of_dvd S T hT hdvd]
  · intro w2 s hw2 hne hs hs2
    rw [mem_owned_shard_indices S T w s hT hdvd] at hs
    rw [mem_owned_shard_indices S T w2 s hT hdvd] at hs2
    rcases Nat.lt_or_ge w w2 with hlt | hge
    · have hmul := Nat.mul_le_mul_right (S / T) (Nat.succ_le_of_lt hlt)
      exact absurd (Nat.lt_of_lt_of_le (Nat.lt_of_lt_of_le hs.2 hmul) hs2.1)
        (Nat.lt_irrefl s)
    · have hlt2 : w2 < w := by omega
      have hmul := Nat.mul_le_mul_right (S / T) (Nat.succ_le_of_lt hlt2)
      exact absurd (Nat.lt_of_lt_of_le (Nat.lt_of_lt_of_le hs2.2 hmul) hs.1)
        (Nat.lt_irrefl s)
  · intro s hs
    have hS : S / T * T = S := Nat.div_mul_cancel hdvd
    have hk0 : 0 < S / T := by
      rcases Nat.eq_zero_or_pos (S / T) with h0 | hpos
      · rw [h0, Nat.zero_mul] at hS
        omega
      · exact hpos
    refine ⟨s / (S / T), ?_, ?_⟩
    · rw [Nat.div_lt_iff_lt_mul hk0, Nat.mul_comm T (S / T), hS]
      exact hs
    · rw [mem_owned_shard_indices S T (s / (S / T)) s hT hdvd]
      constructor
      · exact Nat.div_mul_le_self s (S / T)
      · have h1 := Nat.div_add_mod s (S / T)
        have h2 := Nat.mod_lt s hk0
        rw [Nat.succ_mul]
        have h4 : s = s / (S / T) * (S / T) + s % (S / T) := by
          rw [Nat.mul_comm]
          omega
        calc s = s / (S / T) * (S / T) + s % (S / T) := h4
          _ < s / (S / T) * (S / T) + S / T := Nat.add_lt_add_left h2 _
  · intro cfg st item hcfg hnot
    unfold index_step index_process_osm_object index_log_processing
    dsimp only
    rw [if_neg hnot]
    exact ⟨rfl, rfl⟩

/-- Claim C5, confirmed: gathering the dependencies of a relation version at
timestamp `T_r`, every way in the result is a `GetAsOf(Way, id, T_r)` hit of
a way member; every way member is either represented in the result or its
lookup missed; every node in the result is a located
`GetAsOf(Node, id, T_r)` hit whose id is a node member or appears in the
node list of a fetched way; conversely, for every fetched way, each node id
of its node list is fetched with `GetAsOf(Node, node_id, T_r)` and, when
that lookup yields a located node, the node is included in the gathered
dependencies (exactly one level of expansion); and the relation dependency
list is always empty — relation members are never fetched. -/
theorem c5_relation_dependency_gathering (osm_indexer_map : List (Nat × OsmIndex))
    (num_shards : Nat) (rel : OsmRelation) :
    (get_relation_and_its_dependencies_as_dict osm_indexer_map num_shards rel).2.2.2 = [] ∧
    (∀ wd ∈ (get_relation_and_its_dependencies_as_dict osm_indexer_map num_shards rel).2.2.1,
      ∃ m ∈ rel.members, m.type = MemberType.w ∧ m.ref = wd.id ∧
        lookup_way_as_of osm_indexer_map num_shards m.ref rel.timestamp = some wd) ∧
    (∀ m ∈ rel.members, m.type = MemberType.w →
      (∃ wd ∈ (get_relation_and_its_dependencies_as_dict osm_indexer_map num_shards rel).2.2.1,
        wd.id = m.ref) ∨
      lookup_way_as_of osm_indexer_map num_shards m.ref rel.timestamp = none) ∧
    (∀ nd ∈ (get_relation_and_its_dependencies_as_dict osm_indexer_map num_shards rel).2.1,
      lookup_node_as_of osm_indexer_map num_shards nd.id rel.timestamp = some nd ∧
      is_node_dict_with_location nd = true ∧
      ((∃ m ∈ rel.members, m.type = MemberType.n ∧ m.ref = nd.id) ∨
        (∃ wd ∈ (get_relation_and_its_dependencies_as_dict osm_indexer_map num_shards rel).2.2.1,
          nd.id ∈ wd.nodes))) ∧
    (∀ wd ∈ (get_relation_and_its_dependencies_as_dict osm_indexer_map num_shards rel).2.2.1,
      ∀ nid ∈ wd.nodes, ∀ nd : OsmNode,
        lookup_node_as_of osm_indexer_map num_shards nid rel.timestamp = some nd →
        is_node_dict_with_location nd = true →
        nd ∈ (get_relation_and_its_dependencies_as_dict osm_indexer_map num_shards rel).2.1) := by
  have hinv := c5_fold_invariant osm_indexer_map num_shards rel.timestamp
    (fun id => ∃ m ∈ rel.members, m.type = MemberType.n ∧ m.ref = id)
    (fun id => ∃ m ∈ rel.members, m.type = MemberType.w ∧ m.ref = id)
    rel.members ⟨[], [], []⟩
    (fun m hm ht => ⟨m, hm, ht, rfl⟩)
    (fun m hm ht => ⟨m, hm, ht, rfl⟩)
    (fun p hp => absurd hp (List.not_mem_nil p))
    (fun p hp => absurd hp (List.not_mem_nil p))
  have hrel : (rel.members.foldl (fun acc m =>
      append_relation_dependency_objects_dicts osm_indexer_map num_shards
        m.ref m.type rel.timestamp acc) ⟨[], [], []⟩).relations_map = [] :=
    foldl_preserves _ (fun acc => acc.relations_map)
      (fun acc m => step_relations_map osm_indexer_map num_shards m.ref m.type
        rel.timestamp acc) rel.members ⟨[], [], []⟩
  have hexp := c5_fold_expansion osm_indexer_map num_shards rel.timestamp
    rel.members ⟨[], [], []⟩ (fun q hq => absurd hq (List.not_mem_nil q))
  unfold get_relation_and_its_dependencies_as_dict
  dsimp only
  refine ⟨?_, ?_, ?_, ?_, ?_⟩
  · rw [hrel]; rfl
  · intro wd hwd
    rcases List.mem_map.mp hwd with ⟨p, hp, hpe⟩
    obtain ⟨l1, m, hm, ht, href⟩ := hinv.1 p hp
    have hid : p.2.id = p.1 := lookup_way_as_of_id _ _ _ _ _ l1
    refine ⟨m, hm, ht, ?_, ?_⟩
    · rw [href, ← hpe, hid]
    · rw [href, ← hpe]; exact l1
  · intro m hm ht
    rcases hinv.2.2 m hm ht with hh | hh
    · left
      rw [alist_mem_iff] at hh
      obtain ⟨p, hp, hpk⟩ := hh
      have l1 := (hinv.1 p hp).1
      have hid : p.2.id = p.1 := lookup_way_as_of_id _ _ _ _ _ l1
      exact ⟨p.2, List.mem_map.mpr ⟨p, hp, rfl⟩, by rw [hid, hpk]⟩
    · exact Or.inr hh
  · intro nd hnd
    rcases List.mem_map.mp hnd with ⟨p, hp, hpe⟩
    obtain ⟨l1, l2, l3⟩ := hinv.2.1 p hp
    have hid : p.2.id = p.1 := lookup_node_as_of_id _ _ _ _ _ l1
    refine ⟨?_, ?_, ?_⟩
    · rw [← hpe, hid]; exact l1
    · rw [← hpe]; exact l2
    · rcases l3 with ⟨m, hm, ht, href⟩ | ⟨q, hq, hqn⟩
      · exact Or.inl ⟨m, hm, ht, by rw [href, ← hpe, hid]⟩
      · refine Or.inr ⟨q.2, List.mem_map.mpr ⟨q, hq, rfl⟩, ?_⟩
        rw [← hpe, hid]
        exact hqn
  · intro wd hwd nid hnid nd hhit hloc
    rcases List.mem_map.mp hwd with ⟨p, hp, hpe⟩
    rw [← hpe] at hnid
    exact List.mem_map.mpr ⟨(nid, nd), hexp p hp nid hnid nd hhit hloc, rfl⟩

/-- Witness for C5 at a concrete input: a relation with a node member, a way
member and a relation member gathers no relation dependency, its way member
is a timestamped lookup hit in the result, and node 10 of the fetched way's
node list is fetched and included among the gathered nodes. -/
theorem c5_relation_dependency_gathering_witness :
    (get_relation_and_its_dependencies_as_dict histMap1 1 rel300).2.2.2 = [] ∧
    (∃ m ∈ rel300.members, m.type = MemberType.w ∧ m.ref = way9.id ∧
      lookup_way_as_of histMap1 1 m.ref rel300.timestamp = some way9) ∧
    nodeA ∈ (get_relation_and_its_dependencies_as_dict histMap1 1 rel300).2.1 := by
  refine ⟨(c5_relation_dependency_gathering histMap1 1 rel300).1, ?_, ?_⟩
  · exact (c5_relation_dependency_gathering histMap1 1 rel300).2.1 way9 (by decide)
  · exact (c5_relation_dependency_gathering histMap1 1 rel300).2.2.2.2 way9 (by decide)
      10 (by decide) nodeA (by decide) (by decide)

/-- Witness for C7 at concrete inputs: worker 1 of 3 with 6 shards owns
shards 2 and 3; a record hashing to shard 4 is discarded by that worker. -/
theorem c7_worker_shard_ranges_witness :
    owned_shard_indices 6 3 1 = List.range' 2 2 ∧
    (index_step cfg7 IndexCreatorState.init (OsmStreamItem.node nodeA)).stored = [] ∧
    (index_step cfg7 IndexCreatorState.init (OsmStreamItem.node nodeA)).save_events = 0 := by
  have h := c7_worker_shard_ranges 6 3 1 (by decide) (by decide) (by decide)
  have hd := h.2.2.2 cfg7 IndexCreatorState.init (OsmStreamItem.node nodeA) rfl (by decide)
  refine ⟨?_, hd.1, hd.2⟩
  rw [h.1]
